import Mathlib

/-!
Verification development for the "questionable" note-taking application.

Shallow embedding of:
- `util.rs` `generate_unique_name` and `storage.rs` `Directory` (unique naming);
- `storage.rs` `Storage` / `DataNode` soft delete, `dir_objects`, `get_sub_directories`;
- `id_gen.rs` `TimestampRandIdGen` / `AtomicTimestampRandIdGen`;
- `app.rs` `NonBlockingApplication` (both the `src/app.rs` variant with the
  two-state `MemoryCell` and the buffered error list, and the `egui_app` variant
  with the four-state `MemoryCell`).

Environment interaction (wall-clock time, random draws, disk contents, I/O
success or failure) is passed in as explicit arguments, making every modelled
operation a pure function.  Panics (`unwrap`, `expect`, `todo!`) are modelled
as `none` results.
-/

set_option autoImplicit false

/-- Association-list lookup; models `HashMap::get` (first matching key wins;
maps built by `insertA`/`updateA` keep keys unique, as a `HashMap` does). -/
def lookupA {κ α : Type} [DecidableEq κ] (l : List (κ × α)) (k : κ) : Option α :=
  match l with
  | [] => none
  | e :: rest => if e.1 = k then some e.2 else lookupA rest k

/-- Association-list insert-or-replace; models `HashMap::insert`. -/
def insertA {κ α : Type} [DecidableEq κ] (l : List (κ × α)) (k : κ) (v : α) : List (κ × α) :=
  match l with
  | [] => [(k, v)]
  | e :: rest => if e.1 = k then (k, v) :: rest else e :: insertA rest k v

/-- Association-list update of an existing binding; models
`map.get_mut(k).map(|v| ...)` (absent key: no change). -/
def updateA {κ α : Type} [DecidableEq κ] (l : List (κ × α)) (k : κ) (f : α → α) : List (κ × α) :=
  match l with
  | [] => []
  | e :: rest => if e.1 = k then (e.1, f e.2) :: rest else e :: updateA rest k f

namespace UniqueName

/-!
Embedding of `util.rs::generate_unique_name`.

```rust
pub fn generate_unique_name<'x>(
    existing_names: impl IntoIterator<Item = &'x str>,
    candidate_name: String,
) -> String {
    let start_count = 1;
    let counts = existing_names
        .into_iter()
        .filter_map(|existing_name| {
            Regex::new(&format!(r"^{candidate_name}( #(?<count>\d+))*$")) ...
        })
        .map(|caps| caps.name("count").and_then(|c| c.as_str().parse::<i32>().ok())
                        .unwrap_or(start_count))
        .map(|count| (count, true))
        .collect::<HashMap<i32, bool>>();
    let max_count = counts.keys().max().cloned().unwrap_or(-1);
    for i in start_count..=max_count + 1 {
        if counts.get(&i).is_none() {
            return if i == 0 { candidate_name } else { format!("{candidate_name} #{i}") };
        }
    }
    candidate_name
}
```

Names are `List Char` (the character data of a Rust `String`).  The regex
`^candidate( #(?<count>\d+))*$` is modelled for a candidate taken literally
(no regex metacharacter interpretation; the candidates the claims quote, such
as "a note", contain none): a name matches iff it is the candidate followed by
zero or more blocks of the form `" #<digits>"`, and the repeated capture group
holds the digits of the last block, exactly as Rust's `regex` crate reports it.
`parse::<i32>` succeeds on a digit string iff its value is at most
`i32::MAX = 2147483647` (a `\d+` capture has no sign), and `.ok()` turns
failure into `None`.
-/

/-- Numeric value of a decimal digit character, `none` for other characters. -/
def charToDigit? (c : Char) : Option Nat :=
  if c = '0' then some 0 else if c = '1' then some 1 else if c = '2' then some 2
  else if c = '3' then some 3 else if c = '4' then some 4 else if c = '5' then some 5
  else if c = '6' then some 6 else if c = '7' then some 7 else if c = '8' then some 8
  else if c = '9' then some 9 else none

/-- The regex character class `\d`. -/
def isDigitCh (c : Char) : Bool := (charToDigit? c).isSome

/-- Decimal digit character of a value below ten. -/
def digitToChar (d : Nat) : Char :=
  if d = 0 then '0' else if d = 1 then '1' else if d = 2 then '2' else if d = 3 then '3'
  else if d = 4 then '4' else if d = 5 then '5' else if d = 6 then '6'
  else if d = 7 then '7' else if d = 8 then '8' else '9'

/-- Big-endian decimal digits of `n` prepended to `acc`; fuel-structured
so that it computes by kernel reduction (`fuel ≥ n` suffices). -/
def numCharsAux (fuel n : Nat) (acc : List Char) : List Char :=
  match fuel with
  | 0 => acc
  | f + 1 => if n = 0 then acc else numCharsAux f (n / 10) (digitToChar (n % 10) :: acc)

/-- Decimal rendering of `n`; models `format!("{i}")`. -/
def numChars (n : Nat) : List Char :=
  if n = 0 then ['0'] else numCharsAux n n []

/-- Left fold decoding a big-endian decimal digit list on top of `acc`. -/
def decodeAcc (acc : Nat) (cs : List Char) : Nat :=
  match cs with
  | [] => acc
  | c :: rest => decodeAcc (acc * 10 + (charToDigit? c).getD 0) rest

/-- Numeric value of a non-empty all-digit character list, else `none`. -/
def charsToNat? (cs : List Char) : Option Nat :=
  if cs = [] then none
  else if cs.all isDigitCh then some (decodeAcc 0 cs) else none

/-- Models `str::parse::<i32>().ok()` on a `\d+` capture: the value when it is
a digit string representing a number at most `i32::MAX`, else `none`. -/
def parseI32? (cs : List Char) : Option Nat :=
  (charsToNat? cs).bind (fun n => if n ≤ 2147483647 then some n else none)

/-- Decomposes a suffix into the repeated regex group `( #(\d+))*`: zero or
more blocks `' ' :: '#' :: digits` with a non-empty digit run.  Returns the
digit runs of the blocks in order, `none` when the suffix does not match.
Fuel-structured (`fuel ≥ cs.length` suffices); digit runs are maximal, which
is the only decomposition the regex can accept since a block must start with
`" #"`. -/
def blocksAux (fuel : Nat) (cs : List Char) : Option (List (List Char)) :=
  match fuel, cs with
  | _, [] => some []
  | 0, _ => none
  | f + 1, ' ' :: '#' :: rest =>
    let ds := rest.takeWhile isDigitCh
    if ds = [] then none
    else (blocksAux f (rest.dropWhile isDigitCh)).map (fun bs => ds :: bs)
  | _ + 1, _ => none

/-- See `blocksAux`. -/
def blocks (cs : List Char) : Option (List (List Char)) :=
  blocksAux cs.length cs

/-- Match of one existing name against `^candidate( #(?<count>\d+))*$`:
`none` when the name does not match; `some last` when it matches, where
`last` is the digits captured by the last repetition of the group
(`none` when the name is the bare candidate). -/
def matchCount (cand name : List Char) : Option (Option (List Char)) :=
  if name.take cand.length = cand then
    (blocks (name.drop cand.length)).map (fun bs => bs.getLast?)
  else none

/-- `caps.name("count").and_then(|c| c.as_str().parse::<i32>().ok()).unwrap_or(1)`. -/
def countOf (lastBlock : Option (List Char)) : Nat :=
  (lastBlock.bind parseI32?).getD 1

/-- The multiset of occupied counts: one count per existing name matching the
pattern (Rust collects them into a `HashMap<i32, bool>` used as a set, so only
membership matters). -/
def counts (existing : List (List Char)) (cand : List Char) : List Nat :=
  existing.filterMap (fun name => (matchCount cand name).map countOf)

/-- Maximum of a non-empty tail fold; helper for `maxOf?`. -/
def maxFold (a : Nat) (l : List Nat) : Nat :=
  match l with
  | [] => a
  | y :: ys => maxFold (Nat.max a y) ys

/-- `counts.keys().max()`. -/
def maxOf? (l : List Nat) : Option Nat :=
  match l with
  | [] => none
  | x :: xs => some (maxFold x xs)

/-- The Rust `for i in 1..=max_count + 1` search: first `i ∉ cs` starting at
`i`, trying `fuel` consecutive values. -/
def searchFree (cs : List Nat) (i fuel : Nat) : Option Nat :=
  match fuel with
  | 0 => none
  | f + 1 => if i ∈ cs then searchFree cs (i + 1) f else some i

/-- `util.rs::generate_unique_name`.  The dead `if i == 0` branch of the Rust
source is kept (the loop starts at `start_count = 1`). -/
def generate_unique_name (existing : List (List Char)) (cand : List Char) : List Char :=
  let cs := counts existing cand
  match maxOf? cs with
  | none => cand
  | some m =>
    match searchFree cs 1 (m + 1) with
    | some i => if i = 0 then cand else cand ++ ' ' :: '#' :: numChars i
    | none => cand

/-- `storage.rs::Directory` (entries: name → object id). -/
structure DirectoryS where
  name : List Char
  entries : List (List Char × Nat)
deriving DecidableEq

/-- `Directory::get_new_unique_name`. -/
def get_new_unique_name (d : DirectoryS) (newName : List Char) : List Char :=
  generate_unique_name (d.entries.map Prod.fst) newName

/-- `Directory::add_entry_with_unique_name`. -/
def add_entry_with_unique_name (d : DirectoryS) (id : Nat) (name : List Char) : DirectoryS :=
  { d with entries := insertA d.entries (get_new_unique_name d name) id }

end UniqueName

namespace Store

/-!
Embedding of `storage.rs` (`DataNode`, `Directory`, `Storage`) together with
the tree primitive it builds on.

`storage.rs` imports `crate::tree_like::TreeLike`; `tree_like.rs` is not among
the provided sources, so the tree is modelled from the spec.
-/

/-- Modelled from the spec: one node record of `TreeLike` (`tree_like.rs` is
absent from the sources).  Spec §2/§4.1: a generic arena with a root key, a
value map and two adjacency maps (parent→children in insertion order,
child→parent); `get_node` exposes value, ordered children and parent. -/
structure TreeNodeRec where
  value : Nat
  children : List Nat
  parent : Option Nat
deriving DecidableEq

/-- Modelled from the spec: `TreeLike<ObjectId, DirNode>` as used by
`storage.rs` (the `DirNode` value is just the directory object id, so it is
stored as a `Nat`). -/
structure TreeLikeM where
  root : Nat
  nodes : List (Nat × TreeNodeRec)
deriving DecidableEq

/-- Modelled from the spec: `TreeLike::get_node(key).map(|node| node.children)`,
the ordered child list used by `Storage::get_sub_directories`. -/
def TreeLikeM.getChildren (t : TreeLikeM) (k : Nat) : Option (List Nat) :=
  (lookupA t.nodes k).map (fun n => n.children)

/-- `storage.rs::Directory` with `ObjectId` keys. -/
structure DirectoryM where
  name : String
  entries : List (String × Nat)
deriving DecidableEq

/-- `storage.rs::DataType`. -/
inductive DataTypeM (V : Type) where
  | dir (d : DirectoryM)
  | file (v : V)
deriving DecidableEq

/-- `storage.rs::DataNode` (timestamps are abstract instants). -/
structure DataNodeM (V : Type) where
  id : Nat
  data : DataTypeM V
  creation_time : Nat
  modification_time : Nat
  deletion_time : Option Nat
deriving DecidableEq

/-- `DataNode::is_deleted`. -/
def DataNodeM.is_deleted {V : Type} (n : DataNodeM V) : Bool :=
  n.deletion_time.isSome

/-- `DataNode::delete` (`Utc::now()` passed in as `now`). -/
def DataNodeM.deleteAt {V : Type} (n : DataNodeM V) (now : Nat) : DataNodeM V :=
  { n with deletion_time := some now }

/-- `DataNode::restore`. -/
def DataNodeM.restoreNode {V : Type} (n : DataNodeM V) : DataNodeM V :=
  { n with deletion_time := none }

/-- `storage.rs::Storage`. -/
structure StorageM (V : Type) where
  dir_tree : TreeLikeM
  objects : List (Nat × DataNodeM V)
deriving DecidableEq

/-- `Storage::get_object`. -/
def get_object {V : Type} (s : StorageM V) (id : Nat) : Option (DataNodeM V) :=
  lookupA s.objects id

/-- Soft delete of one object:
`storage.get_object_mut(id).map(|node| node.delete())`. -/
def deleteObject {V : Type} (s : StorageM V) (id now : Nat) : StorageM V :=
  { s with objects := updateA s.objects id (fun n => n.deleteAt now) }

/-- Restore of one object:
`storage.get_object_mut(id).map(|node| node.restore())`. -/
def restoreObject {V : Type} (s : StorageM V) (id : Nat) : StorageM V :=
  { s with objects := updateA s.objects id DataNodeM.restoreNode }

/-- Resolves each id against the object map; `none` models the
`expect("Child must be in tree") / expect("Must be in storage")` panic on the
first unresolvable id. -/
def resolveAll {V : Type} (objs : List (Nat × DataNodeM V)) (cs : List Nat) :
    Option (List (DataNodeM V)) :=
  match cs with
  | [] => some []
  | c :: rest =>
    match lookupA objs c with
    | none => none
    | some n => (resolveAll objs rest).map (fun l => n :: l)

/-- `Storage::get_sub_directories`: outer `none` when `dir_id` is not in the
tree; inner `none` models the `expect` panic on a child missing from the
object map; otherwise the resolved children with soft-deleted ones filtered
out. -/
def get_sub_directories {V : Type} (s : StorageM V) (dirId : Nat) :
    Option (Option (List (DataNodeM V))) :=
  (s.dir_tree.getChildren dirId).map (fun cs =>
    (resolveAll s.objects cs).map (fun ns => ns.filter (fun n => !n.is_deleted)))

/-- Resolves each directory entry `(name, id)` to `(name, object)`; `none`
models the `expect("Must be in storage")` panic. -/
def resolveEntries {V : Type} (objs : List (Nat × DataNodeM V))
    (es : List (String × Nat)) : Option (List (String × DataNodeM V)) :=
  match es with
  | [] => some []
  | e :: rest =>
    match lookupA objs e.2 with
    | none => none
    | some n => (resolveEntries objs rest).map (fun l => (e.1, n) :: l)

/-- `Storage::dir_objects`: outer `none` when `dir_id` is missing from the
object map or is not a directory; inner `none` models the `expect` panic on a
dangling entry; no filtering on deletion state. -/
def dir_objects {V : Type} (s : StorageM V) (dirId : Nat) :
    Option (Option (List (String × DataNodeM V))) :=
  (lookupA s.objects dirId).bind (fun n =>
    match n.data with
    | .dir d => some (resolveEntries s.objects d.entries)
    | .file _ => none)

/-! Concrete fixtures used by witnesses: a root directory (id 1) holding one
sub-directory (id 2) under the entry name "sub"; a deleted twin; and a
storage whose root has a dangling entry. -/

/-- Witness fixture: the root directory node. -/
def wRootNode : DataNodeM Unit :=
  { id := 1, data := .dir { name := "root", entries := [("sub", 2)] },
    creation_time := 0, modification_time := 0, deletion_time := none }

/-- Witness fixture: the sub-directory node. -/
def wSubNode : DataNodeM Unit :=
  { id := 2, data := .dir { name := "sub", entries := [] },
    creation_time := 0, modification_time := 0, deletion_time := none }

/-- Witness fixture: the sub-directory node, soft-deleted at instant 9. -/
def wSubNodeDeleted : DataNodeM Unit :=
  { wSubNode with deletion_time := some 9 }

/-- Witness fixture: the two-node directory tree. -/
def wTree : TreeLikeM :=
  { root := 1,
    nodes := [(1, { value := 1, children := [2], parent := none }),
              (2, { value := 2, children := [], parent := some 1 })] }

/-- Witness fixture: storage with the live sub-directory. -/
def wStorage : StorageM Unit :=
  { dir_tree := wTree, objects := [(1, wRootNode), (2, wSubNode)] }

/-- Witness fixture: storage with the soft-deleted sub-directory. -/
def wStorageDeleted : StorageM Unit :=
  { dir_tree := wTree, objects := [(1, wRootNode), (2, wSubNodeDeleted)] }

/-- Witness fixture: a root whose entry "ghost" points at a missing id. -/
def wRootDangling : DataNodeM Unit :=
  { id := 1, data := .dir { name := "root", entries := [("ghost", 99)] },
    creation_time := 0, modification_time := 0, deletion_time := none }

/-- Witness fixture: storage with the dangling entry. -/
def wStorageDangling : StorageM Unit :=
  { dir_tree := { root := 1, nodes := [(1, { value := 1, children := [], parent := none })] },
    objects := [(1, wRootDangling)] }

end Store

/-!
Shared pieces of the two `NonBlockingApplication` variants.  Keys are the
`PathBuf` map keys, modelled as `String`.  `DataNode<Note>` is modelled by the
fields the claims' operations read or write — the note text (`data.text`) and
the `dirty` flag; the remaining `DataNode` fields (path, timestamps) are
never consulted by the modelled operations and are omitted.
-/

/-- The in-memory note value: `DataNode<Note>` restricted to `data.text` and
`dirty`. -/
structure NoteNode where
  text : String
  dirty : Bool
deriving DecidableEq

/-- A queued executor job for the notes map: a load of `path`, or a save of
`path` carrying the cloned note captured at submission time
(`save_note_in_background` clones the current in-memory value into the
closure). -/
inductive NoteJob where
  | load (path : String)
  | save (path : String) (snapshot : NoteNode)
deriving DecidableEq

/-- The path a job is keyed by. -/
def NoteJob.key (j : NoteJob) : String :=
  match j with
  | .load p => p
  | .save p _ => p

deriving instance DecidableEq for Except

/-- One message on a completion channel: `io::Result<DataNode<Note>>`, with
the error carried as its message string. -/
abbrev Msg := Except String NoteNode

/-- The environment's verdict on one executor job: a successful disk
operation (for a load, the text read from the file; for a save the field is
unused) or an I/O failure with its message. -/
inductive JobResult where
  | success (loadedText : String)
  | failure (msg : String)
deriving DecidableEq

/-- What the worker sends back on the channel:
`load_note` builds `DataNode::new(Note::from_text(text))` (a clean node,
`dirty = false`); `save_note` writes the snapshot's text and returns the
snapshot clone with `dirty = false`; an `io::Result::Err` is forwarded as is. -/
def runJob (j : NoteJob) (r : JobResult) : Msg :=
  match j, r with
  | .load _, .success t => .ok { text := t, dirty := false }
  | .load _, .failure m => .error m
  | .save _ snap, .success _ => .ok { snap with dirty := false }
  | .save _ _, .failure m => .error m

/-- Appends a message to the channel buffer of `p`, creating the channel if a
sender for it does not exist yet. -/
def pushChan (l : List (String × List Msg)) (p : String) (m : Msg) :
    List (String × List Msg) :=
  if (lookupA l p).isSome then updateA l p (fun ms => ms ++ [m]) else l ++ [(p, [m])]

/-- `background_tasks.notes.entry(path)`: keep an existing channel, create an
empty one otherwise. -/
def ensureChannel (l : List (String × List Msg)) (p : String) :
    List (String × List Msg) :=
  if (lookupA l p).isSome then l else l ++ [(p, [])]

namespace SrcApp

/-!
Embedding of `src/app.rs::NonBlockingApplication` (the variant whose
`MemoryCell` has only `PendingRead` and `Value`, and which buffers error
messages in `error_msg`, drained by `pop_errors`).
-/

/-- `src/app.rs::MemoryCell`. -/
inductive MemoryCell (T : Type) where
  | pendingRead
  | value (v : T)
deriving DecidableEq

/-- `MemoryCell::value`. -/
def MemoryCell.value? {T : Type} (c : MemoryCell T) : Option T :=
  match c with
  | .value v => some v
  | .pendingRead => none

/-- The orchestrator state: the per-path note cells (`state.memory.notes`),
the per-path completion channel buffers (`background_tasks.notes`, message
queue of each `Pipe`), the executor's pending job queue, and the buffered
error messages (`error_msg`).  The `dirs`/`metadata` halves of `FileMemory`
are structurally identical, independent of the notes state, and not claimed
about, so they are not carried. -/
structure AppState where
  notes : List (String × MemoryCell NoteNode)
  channels : List (String × List Msg)
  jobs : List NoteJob
  errorMsg : List String
deriving DecidableEq

/-- `NonBlockingApplication::get_note`. -/
def getNote (s : AppState) (p : String) : Option NoteNode :=
  (lookupA s.notes p).bind MemoryCell.value?

/-- `NonBlockingApplication::note_in_memory` (`contains_key`). -/
def noteInMemory (s : AppState) (p : String) : Bool :=
  (lookupA s.notes p).isSome

/-- `NonBlockingApplication::note_is_dirty`. -/
def noteIsDirty (s : AppState) (p : String) : Bool :=
  ((getNote s p).map (fun n => n.dirty)).getD false

/-- `NonBlockingApplication::set_dirty`: sets the flag through `value_mut`
(no effect on a pending or absent cell). -/
def setDirty (s : AppState) (p : String) : AppState :=
  { s with
    notes := updateA s.notes p (fun c =>
      match c with
      | .value v => .value { v with dirty := true }
      | c => c) }

/-- A consumer edit through `get_note_mut` / `value_mut` (no effect on a
pending or absent cell). -/
def modifyNote (s : AppState) (p : String) (f : NoteNode → NoteNode) : AppState :=
  { s with
    notes := updateA s.notes p (fun c =>
      match c with
      | .value v => .value (f v)
      | c => c) }

/-- `NonBlockingApplication::read_note_in_background`: no-op when a cell
already exists for `p`; otherwise inserts `PendingRead`, ensures the channel
and submits a load job to the executor. -/
def readNoteInBackground (s : AppState) (p : String) : AppState :=
  if noteInMemory s p then s
  else
    { s with
      notes := insertA s.notes p .pendingRead,
      channels := ensureChannel s.channels p,
      jobs := s.jobs ++ [.load p] }

/-- `NonBlockingApplication::save_note_in_background`: ensures the channel,
clones the current in-memory value (`.unwrap()` — `none` models the panic
when the cell is absent or pending) and submits a save job carrying the
clone. -/
def saveNoteInBackground (s : AppState) (p : String) : Option AppState :=
  match getNote s p with
  | none => none
  | some v =>
    some { s with
           channels := ensureChannel s.channels p,
           jobs := s.jobs ++ [.save p v] }

/-- A worker thread dequeues the front job, runs it and sends the result on
the job's channel; `none` when no job is queued.  `r` is the environment's
disk outcome for the job. -/
def completeJob (s : AppState) (r : JobResult) : Option AppState :=
  match s.jobs with
  | [] => none
  | j :: rest =>
    some { s with jobs := rest, channels := pushChan s.channels j.key (runJob j r) }

/-- `rx.try_iter().for_each(..)` for one message: `Ok(note)` replaces the cell
with `Value(note)`, `Err(err)` pushes `err.to_string()` onto `error_msg`. -/
def applyMsg (p : String)
    (acc : List (String × MemoryCell NoteNode) × List String) (m : Msg) :
    List (String × MemoryCell NoteNode) × List String :=
  match m with
  | .ok n => (insertA acc.1 p (.value n), acc.2)
  | .error e => (acc.1, acc.2 ++ [e])

/-- Drains every channel in order, folding `applyMsg` over each buffer. -/
def pollAll (acc : List (String × MemoryCell NoteNode) × List String) :
    List (String × List Msg) → List (String × MemoryCell NoteNode) × List String
  | [] => acc
  | e :: rest => pollAll (e.2.foldl (applyMsg e.1) acc) rest

/-- `NonBlockingApplication::poll_notes_tasks`: drains all note channels
without blocking; the channels stay registered with empty buffers. -/
def pollNotes (s : AppState) : AppState :=
  let r := pollAll (s.notes, s.errorMsg) s.channels
  { s with
    notes := r.1,
    errorMsg := r.2,
    channels := s.channels.map (fun e => (e.1, [])) }

/-- `NonBlockingApplication::pop_errors`. -/
def popErrors (s : AppState) : List String × AppState :=
  (s.errorMsg, { s with errorMsg := [] })

/-- The consumer-visible operations on the notes half of the orchestrator;
used to state preservation of invariants under every step. -/
inductive Op where
  | read (p : String)
  | saveOp (p : String)
  | setD (p : String)
  | modify (p : String) (f : NoteNode → NoteNode)
  | complete (r : JobResult)
  | poll
  | popErrs

/-- One step of the orchestrator; `none` models a panic. -/
def applyOp (s : AppState) : Op → Option AppState
  | .read p => some (readNoteInBackground s p)
  | .saveOp p => saveNoteInBackground s p
  | .setD p => some (setDirty s p)
  | .modify p f => some (modifyNote s p f)
  | .complete r => completeJob s r
  | .poll => some (pollNotes s)
  | .popErrs => some (popErrors s).2

/-- The C1 scenario after the cell holds a value and the consumer has called
`set_dirty`: submit the save, edit the note (`f`) and mark dirty again, let
the worker complete the save successfully (`t` unused by a save), poll. -/
def saveEditRace (s : AppState) (p : String) (f : NoteNode → NoteNode)
    (t : String) : Option AppState :=
  (saveNoteInBackground (setDirty s p) p).bind (fun s2 =>
    (completeJob (setDirty (modifyNote s2 p f) p) (.success t)).map pollNotes)

/-- Submit a save for `p`, let the worker fail with message `m`, poll. -/
def saveFailThenPoll (s : AppState) (p : String) (m : String) : Option AppState :=
  (saveNoteInBackground s p).bind (fun s1 =>
    (completeJob s1 (.failure m)).map pollNotes)

/-- Submit a load for `p`, let the worker fail with message `m`, poll. -/
def loadFailThenPoll (s : AppState) (p : String) (m : String) : Option AppState :=
  (completeJob (readNoteInBackground s p) (.failure m)).map pollNotes

/-- The stuck shape reached after a failed load for `p` was polled: the cell
is still `PendingRead`, no job for `p` is queued, and `p`'s channel (if any)
is drained. -/
def FailedStuck (s : AppState) (p : String) : Prop :=
  lookupA s.notes p = some .pendingRead ∧
  (∀ j ∈ s.jobs, j.key ≠ p) ∧
  (∀ e ∈ s.channels, e.1 = p → e.2 = [])

end SrcApp

namespace EguiApp

/-!
Embedding of `egui_app/src/app.rs::NonBlockingApplication` (the variant
whose `MemoryCell` carries the `ReadError` and `ValueWriteError` states).
Only the operations the claims quote are modelled; its `poll_notes_tasks`
hits `todo!()` on an error result and is not claimed about here.
-/

/-- `egui_app/src/app.rs::MemoryCell`. -/
inductive ECell (T : Type) where
  | pendingRead
  | readError (e : String)
  | valueWriteError (v : T) (e : String)
  | value (v : T)
deriving DecidableEq

/-- `MemoryCell::value` of the four-state cell. -/
def ECell.value? {T : Type} (c : ECell T) : Option T :=
  match c with
  | .value v => some v
  | .valueWriteError v _ => some v
  | .pendingRead => none
  | .readError _ => none

/-- Orchestrator state of the `egui_app` variant (no `error_msg` field). -/
structure EState where
  notes : List (String × ECell NoteNode)
  channels : List (String × List Msg)
  jobs : List NoteJob
deriving DecidableEq

/-- `note_in_memory` (`contains_key`). -/
def noteInMemoryE (s : EState) (p : String) : Bool :=
  (lookupA s.notes p).isSome

/-- `get_note`. -/
def getNoteE (s : EState) (p : String) : Option NoteNode :=
  (lookupA s.notes p).bind ECell.value?

/-- `read_note_in_background`: no-op when any cell exists for `p`; otherwise
inserts `PendingRead`, ensures the channel, submits a load job. -/
def readNoteE (s : EState) (p : String) : EState :=
  if noteInMemoryE s p then s
  else
    { s with
      notes := insertA s.notes p .pendingRead,
      channels := ensureChannel s.channels p,
      jobs := s.jobs ++ [.load p] }

/-- `save_note_in_background`: unconditionally ensures the channel, clones
the current value (`unwrap` — `none` models the panic) and submits a save
job; there is no check for an already outstanding save. -/
def saveNoteE (s : EState) (p : String) : Option EState :=
  match getNoteE s p with
  | none => none
  | some v =>
    some { s with
           channels := ensureChannel s.channels p,
           jobs := s.jobs ++ [.save p v] }

/-- The number of queued load jobs for `p`. -/
def countLoad (jobs : List NoteJob) (p : String) : Nat :=
  (jobs.filter (fun j =>
    match j with
    | .load q => decide (q = p)
    | .save _ _ => false)).length

/-- The number of queued save jobs for `p`. -/
def countSave (jobs : List NoteJob) (p : String) : Nat :=
  (jobs.filter (fun j =>
    match j with
    | .load _ => false
    | .save q _ => decide (q = p))).length

/-- Two consecutive `save_note_in_background(p)` calls (no poll between). -/
def saveTwice (s : EState) (p : String) : Option EState :=
  (saveNoteE s p).bind (fun s1 => saveNoteE s1 p)

end EguiApp

namespace IdGen

/-!
Embedding of `id_gen.rs`.  The environment supplies `unix_timestamp()`
readings (`now`, in milliseconds, a `u64` value) and `rand::rng().random::<u16>()`
draws (`rnd`).  The packed id

`timestamp << 24 | ((seed & 0x0FFF) << 12) | (random & 0x0FFF)`

is computed on `u64`, where the left shift discards high bits (keeping
`timestamp % 2^40`) and the three fields occupy disjoint bit ranges, so the
bitwise ors are additions. -/

/-- `x & 0x0FFF`. -/
def u12 (x : Nat) : Nat := x % 4096

/-- The packed 64-bit id. -/
def packId (timestampCnt seed rnd : Nat) : Nat :=
  timestampCnt % 2 ^ 40 * 2 ^ 24 + u12 seed * 2 ^ 12 + u12 rnd

/-- `TimestampRandIdGen` (`rand_seed_cnt: u16`, `timestamp_cnt: u64`). -/
structure TRGen where
  rand_seed_cnt : Nat
  timestamp_cnt : Nat
deriving DecidableEq

/-- `TimestampRandIdGen::new()` with its two environment samples. -/
def TRGen.fresh (rnd now : Nat) : TRGen :=
  { rand_seed_cnt := rnd % 2 ^ 16, timestamp_cnt := now }

/-- `TimestampRandIdGen::next`: bumps the seed counter (u16, wrapping
modelled by `% 2^16`), advances `timestamp_cnt` to
`max(unix_timestamp(), timestamp_cnt + 1)` (u64), and packs the updated
fields with a fresh random draw. -/
def TRGen.next (g : TRGen) (now rnd : Nat) : TRGen × Nat :=
  let seed := (g.rand_seed_cnt + 1) % 2 ^ 16
  let cnt := Nat.max now ((g.timestamp_cnt + 1) % 2 ^ 64)
  ({ rand_seed_cnt := seed, timestamp_cnt := cnt }, packId cnt seed rnd)

/-- `AtomicTimestampRandIdGen` (atomics hold the same two counters). -/
structure ATRGen where
  rand_seed_cnt : Nat
  timestamp_cnt : Nat
deriving DecidableEq

/-- `AtomicTimestampRandIdGen::new()`. -/
def ATRGen.fresh (rnd now : Nat) : ATRGen :=
  { rand_seed_cnt := rnd % 2 ^ 16, timestamp_cnt := now }

/-- `AtomicTimestampRandIdGen::next`: `fetch_add` returns the previous seed
counter and `fetch_max` returns the previous timestamp counter, and those
previous values are what gets packed. -/
def ATRGen.next (g : ATRGen) (now rnd : Nat) : ATRGen × Nat :=
  ({ rand_seed_cnt := (g.rand_seed_cnt + 1) % 2 ^ 16,
     timestamp_cnt := Nat.max g.timestamp_cnt now },
   packId g.timestamp_cnt g.rand_seed_cnt rnd)

/-- The id minted by `DataNode::new`, which constructs a fresh generator per
call: `AtomicTimestampRandIdGen::new().next()`.  `now` is the timestamp
sampled by `new()`, `seedInit` the random u16 sampled by `new()`, `now2` the
timestamp sampled inside `next()` (the `fetch_max` discards it from the
returned value), `rnd` the random u16 sampled inside `next()`. -/
def dataNodeNewId (now seedInit now2 rnd : Nat) : Nat :=
  ((ATRGen.fresh seedInit now).next now2 rnd).2

end IdGen

/-! ### Association-list lemmas -/

theorem lookupA_insertA_self {κ α : Type} [DecidableEq κ] (l : List (κ × α)) (k : κ) (v : α) :
    lookupA (insertA l k v) k = some v := by
  induction l with
  | nil => simp [insertA, lookupA]
  | cons e rest ih =>
    by_cases h : e.1 = k
    · simp [insertA, h, lookupA]
    · simp [insertA, h, lookupA, ih]

theorem lookupA_insertA_ne {κ α : Type} [DecidableEq κ] (l : List (κ × α)) (k k' : κ) (v : α)
    (h : k' ≠ k) : lookupA (insertA l k v) k' = lookupA l k' := by
  induction l with
  | nil => simp [insertA, lookupA, Ne.symm h]
  | cons e rest ih =>
    by_cases he : e.1 = k
    · simp [insertA, he, lookupA, Ne.symm h]
    · simp [insertA, he, lookupA, ih]

theorem lookupA_updateA_self {κ α : Type} [DecidableEq κ] (l : List (κ × α)) (k : κ) (f : α → α) :
    lookupA (updateA l k f) k = (lookupA l k).map f := by
  induction l with
  | nil => simp [updateA, lookupA]
  | cons e rest ih =>
    by_cases h : e.1 = k
    · simp [updateA, h, lookupA]
    · simp [updateA, h, lookupA, ih]

theorem lookupA_updateA_ne {κ α : Type} [DecidableEq κ] (l : List (κ × α)) (k k' : κ) (f : α → α)
    (h : k' ≠ k) : lookupA (updateA l k f) k' = lookupA l k' := by
  induction l with
  | nil => simp [updateA]
  | cons e rest ih =>
    by_cases he : e.1 = k
    · simp [updateA, he, lookupA, Ne.symm h]
    · simp [updateA, he, lookupA, ih]

namespace UniqueName

/-! ### Decimal rendering and parsing lemmas -/

theorem charToDigit?_digitToChar (d : Nat) (h : d < 10) :
    charToDigit? (digitToChar d) = some d := by
  interval_cases d <;> rfl

theorem isDigitCh_digitToChar (d : Nat) : isDigitCh (digitToChar d) = true := by
  unfold digitToChar
  repeat' split
  all_goals decide

theorem decodeAcc_append (xs ys : List Char) : ∀ a,
    decodeAcc a (xs ++ ys) = decodeAcc (decodeAcc a xs) ys := by
  induction xs with
  | nil => intro a; rfl
  | cons c rest ih => intro a; simp [decodeAcc, ih]

theorem numCharsAux_zero (fuel : Nat) (acc : List Char) :
    numCharsAux fuel 0 acc = acc := by
  cases fuel <;> simp [numCharsAux]

theorem numCharsAux_append (fuel : Nat) : ∀ (n : Nat) (acc : List Char),
    numCharsAux fuel n acc = numCharsAux fuel n [] ++ acc := by
  induction fuel with
  | zero => intro n acc; rfl
  | succ f ih =>
    intro n acc
    by_cases h : n = 0
    · simp [numCharsAux, h]
    · rw [numCharsAux, numCharsAux, if_neg h, if_neg h, ih (n / 10),
        ih (n / 10) [digitToChar (n % 10)], List.append_assoc]
      rfl

theorem numCharsAux_spec (fuel : Nat) : ∀ n, n ≠ 0 → n ≤ fuel →
    decodeAcc 0 (numCharsAux fuel n []) = n ∧
    (∀ c ∈ numCharsAux fuel n [], isDigitCh c = true) ∧
    numCharsAux fuel n [] ≠ [] := by
  induction fuel with
  | zero => intro n h hle; omega
  | succ f ih =>
    intro n h hle
    rw [numCharsAux, if_neg h, numCharsAux_append]
    by_cases h10 : n / 10 = 0
    · rw [h10, numCharsAux_zero]
      have hlt : n % 10 < 10 := Nat.mod_lt _ (by omega)
      have hn : n % 10 = n := by omega
      refine ⟨?_, ?_, by simp⟩
      · simp only [decodeAcc, charToDigit?_digitToChar (n % 10) hlt, Option.getD_some]
        omega
      · intro c hc
        simp at hc
        rw [hc]
        exact isDigitCh_digitToChar _
    · have hdiv : n / 10 ≤ f := by
        have := Nat.div_lt_self (by omega : 0 < n) (by omega : 1 < 10)
        omega
      obtain ⟨hdec, hdig, _⟩ := ih (n / 10) h10 hdiv
      have hlt : n % 10 < 10 := Nat.mod_lt _ (by omega)
      refine ⟨?_, ?_, by simp⟩
      · rw [decodeAcc_append, hdec]
        simp [decodeAcc, charToDigit?_digitToChar _ hlt]
        omega
      · intro c hc
        rcases List.mem_append.mp hc with hc | hc
        · exact hdig c hc
        · simp at hc
          rw [hc]
          exact isDigitCh_digitToChar _

theorem numChars_ne_nil (n : Nat) : numChars n ≠ [] := by
  by_cases h : n = 0
  · simp [numChars, h]
  · rw [numChars, if_neg h]
    exact (numCharsAux_spec n n h (Nat.le_refl n)).2.2

theorem numChars_digits (n : Nat) : ∀ c ∈ numChars n, isDigitCh c = true := by
  by_cases h : n = 0
  · intro c hc
    simp [numChars, h] at hc
    rw [hc]
    decide
  · rw [numChars, if_neg h]
    exact (numCharsAux_spec n n h (Nat.le_refl n)).2.1

theorem parseI32?_numChars (n : Nat) (h : n ≤ 2147483647) :
    parseI32? (numChars n) = some n := by
  by_cases h0 : n = 0
  · subst h0; rfl
  · have hspec := numCharsAux_spec n n h0 (Nat.le_refl n)
    rw [parseI32?, charsToNat?]
    rw [numChars, if_neg h0]
    rw [if_neg hspec.2.2, if_pos (List.all_eq_true.mpr hspec.2.1), hspec.1]
    simp [h]

/-! ### Block decomposition and match lemmas -/

theorem takeWhile_of_all {p : Char → Bool} (l : List Char) (h : ∀ c ∈ l, p c = true) :
    l.takeWhile p = l := by
  induction l with
  | nil => rfl
  | cons c rest ih =>
    rw [List.takeWhile_cons, h c (by simp), ih (fun c hc => h c (by simp [hc]))]
    simp

theorem dropWhile_of_all {p : Char → Bool} (l : List Char) (h : ∀ c ∈ l, p c = true) :
    l.dropWhile p = [] := by
  induction l with
  | nil => rfl
  | cons c rest ih =>
    rw [List.dropWhile_cons, h c (by simp), ih (fun c hc => h c (by simp [hc]))]
    simp

theorem blocks_single (ds : List Char) (hne : ds ≠ [])
    (hds : ∀ c ∈ ds, isDigitCh c = true) :
    blocks (' ' :: '#' :: ds) = some [ds] := by
  show blocksAux (ds.length + 2) (' ' :: '#' :: ds) = some [ds]
  rw [show ds.length + 2 = (ds.length + 1) + 1 from rfl]
  rw [blocksAux]
  simp only [takeWhile_of_all ds hds, dropWhile_of_all ds hds, if_neg hne]
  rfl

theorem matchCount_self (cand : List Char) : matchCount cand cand = some none := by
  rw [matchCount, if_pos (List.take_length cand), List.drop_length]
  rfl

theorem matchCount_suffixed (cand ds : List Char) (hne : ds ≠ [])
    (hds : ∀ c ∈ ds, isDigitCh c = true) :
    matchCount cand (cand ++ ' ' :: '#' :: ds) = some (some ds) := by
  rw [matchCount, if_pos (List.take_left cand _), List.drop_left,
    blocks_single ds hne hds]
  rfl

theorem mem_counts (existing : List (List Char)) (cand name : List Char) (c : Nat)
    (hname : name ∈ existing) (h : (matchCount cand name).map countOf = some c) :
    c ∈ counts existing cand :=
  List.mem_filterMap.mpr ⟨name, hname, h⟩

/-! ### Maximum and loop search lemmas -/

theorem maxFold_le (l : List Nat) : ∀ a, a ≤ maxFold a l := by
  induction l with
  | nil => intro a; exact Nat.le_refl a
  | cons y ys ih =>
    intro a
    exact Nat.le_trans (Nat.le_max_left a y) (ih (Nat.max a y))

theorem le_maxFold_of_mem (l : List Nat) : ∀ a y, y ∈ l → y ≤ maxFold a l := by
  induction l with
  | nil => intro a y hy; cases hy
  | cons z zs ih =>
    intro a y hy
    rcases List.mem_cons.mp hy with h | h
    · subst h
      exact Nat.le_trans (Nat.le_max_right a y) (maxFold_le zs _)
    · exact ih _ y h

theorem maxFold_mem (l : List Nat) : ∀ a, maxFold a l = a ∨ maxFold a l ∈ l := by
  induction l with
  | nil => intro a; exact Or.inl rfl
  | cons y ys ih =>
    intro a
    have hstep : maxFold a (y :: ys) = maxFold (Nat.max a y) ys := rfl
    rcases ih (Nat.max a y) with h | h
    · rcases Nat.le_total a y with hle | hle
      · have hm : Nat.max a y = y := Nat.max_eq_right hle
        exact Or.inr (by rw [hstep, h, hm]; exact List.mem_cons_self y ys)
      · have hm : Nat.max a y = a := Nat.max_eq_left hle
        exact Or.inl (by rw [hstep, h, hm])
    · exact Or.inr (by rw [hstep]; exact List.mem_cons_of_mem y h)

theorem maxOf?_le (l : List Nat) (m : Nat) (h : maxOf? l = some m) :
    ∀ y ∈ l, y ≤ m := by
  cases l with
  | nil => simp [maxOf?] at h
  | cons x xs =>
    rw [maxOf?, Option.some_inj] at h
    intro y hy
    rcases List.mem_cons.mp hy with hm | hm
    · subst hm; rw [← h]; exact maxFold_le xs y
    · rw [← h]; exact le_maxFold_of_mem xs x y hm

theorem maxOf?_mem (l : List Nat) (m : Nat) (h : maxOf? l = some m) : m ∈ l := by
  cases l with
  | nil => simp [maxOf?] at h
  | cons x xs =>
    rw [maxOf?, Option.some_inj] at h
    rcases maxFold_mem xs x with hm | hm
    · rw [← h, hm]; simp
    · rw [← h]; simp [hm]

theorem maxOf?_eq_none (l : List Nat) : maxOf? l = none ↔ l = [] := by
  cases l <;> simp [maxOf?]

theorem searchFree_some (cs : List Nat) : ∀ fuel i n, searchFree cs i fuel = some n →
    n ∉ cs ∧ i ≤ n ∧ n < i + fuel ∧ ∀ k, i ≤ k → k < n → k ∈ cs := by
  intro fuel
  induction fuel with
  | zero => intro i n h; simp [searchFree] at h
  | succ f ih =>
    intro i n h
    rw [searchFree] at h
    by_cases hi : i ∈ cs
    · rw [if_pos hi] at h
      obtain ⟨h1, h2, h3, h4⟩ := ih (i + 1) n h
      refine ⟨h1, by omega, by omega, ?_⟩
      intro k hk1 hk2
      by_cases hk : k = i
      · rw [hk]; exact hi
      · exact h4 k (by omega) hk2
    · rw [if_neg hi, Option.some_inj] at h
      subst h
      exact ⟨hi, Nat.le_refl i, by omega, fun k hk1 hk2 => False.elim (by omega)⟩

theorem searchFree_isSome (cs : List Nat) : ∀ fuel i j, i ≤ j → j < i + fuel → j ∉ cs →
    (searchFree cs i fuel).isSome = true := by
  intro fuel
  induction fuel with
  | zero => intro i j h1 h2 h3; omega
  | succ f ih =>
    intro i j h1 h2 h3
    rw [searchFree]
    by_cases hi : i ∈ cs
    · rw [if_pos hi]
      have hij : i ≠ j := fun he => h3 (he ▸ hi)
      exact ih (i + 1) j (by omega) (by omega) h3
    · rw [if_neg hi]; rfl

/-! ### Behaviour of `generate_unique_name` -/

theorem gen_of_counts_nil (existing : List (List Char)) (cand : List Char)
    (h : counts existing cand = []) : generate_unique_name existing cand = cand := by
  rw [generate_unique_name]
  simp only [h]
  rfl

theorem gen_min (existing : List (List Char)) (cand : List Char) (m : Nat)
    (hm : maxOf? (counts existing cand) = some m) :
    ∃ i, generate_unique_name existing cand = cand ++ ' ' :: '#' :: numChars i ∧
      1 ≤ i ∧ i ≤ m + 1 ∧ i ∉ counts existing cand ∧
      ∀ k, 1 ≤ k → k < i → k ∈ counts existing cand := by
  have hfree : m + 1 ∉ counts existing cand := fun hmem =>
    absurd (maxOf?_le _ m hm _ hmem) (by omega)
  have hsome := searchFree_isSome (counts existing cand) (m + 1) 1 (m + 1)
    (by omega) (by omega) hfree
  obtain ⟨i, hi⟩ := Option.isSome_iff_exists.mp hsome
  obtain ⟨h1, h2, h3, h4⟩ := searchFree_some _ _ _ _ hi
  refine ⟨i, ?_, h2, by omega, h1, fun k hk1 hk2 => h4 k hk1 hk2⟩
  rw [generate_unique_name]
  simp only [hm, hi]
  rw [if_neg (by omega : ¬ i = 0)]

theorem gen_not_mem (existing : List (List Char)) (cand : List Char)
    (hbound : ∀ c ∈ counts existing cand, c < 2147483647) :
    generate_unique_name existing cand ∉ existing := by
  cases hmax : maxOf? (counts existing cand) with
  | none =>
    have hnil := (maxOf?_eq_none _).mp hmax
    rw [gen_of_counts_nil existing cand hnil]
    intro hmem
    have h1 : (1 : Nat) ∈ counts existing cand :=
      mem_counts existing cand cand 1 hmem (by rw [matchCount_self]; rfl)
    rw [hnil] at h1
    cases h1
  | some m =>
    obtain ⟨i, heq, hi1, him, hnot, _⟩ := gen_min existing cand m hmax
    rw [heq]
    intro hmem
    have hmlt : m < 2147483647 := hbound m (maxOf?_mem _ m hmax)
    have hle : i ≤ 2147483647 := by omega
    have hmatch := matchCount_suffixed cand (numChars i) (numChars_ne_nil i)
      (numChars_digits i)
    have hcount : (matchCount cand (cand ++ ' ' :: '#' :: numChars i)).map countOf
        = some i := by
      rw [hmatch]
      simp [countOf, parseI32?_numChars i hle]
    exact hnot (mem_counts existing cand _ i hmem hcount)

end UniqueName

/-! ### Claims C2 and C3: unique-name generation -/

/-- C2, counterexample: for a directory whose entries already contain exactly
one name "a note", adding a second entry with candidate "a note" yields the
entry name "a note #2", not "a note #1" as claimed — the bare sibling
"a note" already occupies count 1 (`unwrap_or(start_count)`), so the loop
skips suffix 1. -/
theorem c2_first_collision_gets_suffix_two :
    (UniqueName.add_entry_with_unique_name
        { name := "root".data, entries := [("a note".data, 7)] } 9 "a note".data).entries
      = [("a note".data, 7), ("a note #2".data, 9)] ∧
    UniqueName.generate_unique_name ["a note".data] "a note".data = "a note #2".data ∧
    UniqueName.generate_unique_name ["a note".data] "a note".data ≠ "a note #1".data := by
  decide

/-- C2 (amended): for inputs whose occupied counts stay below
`i32::MAX = 2147483647` (beyond which the source's `i32` loop bound
`max_count + 1` overflows), `add_entry_with_unique_name` inserts the
candidate with the suffix `" #i"` where `i` is the smallest count `≥ 1` not
occupied, and a sibling matching `^candidate( #(\d+))*$` occupies its last
parsed numeric suffix — or count 1 when it is the bare candidate (or its
suffix fails to parse as an `i32`); so a lone entry "a note" makes the next
name "a note #2". -/
theorem c2_smallest_free_suffix (d : UniqueName.DirectoryS) (id : Nat)
    (cand : List Char) (m : Nat)
    (hbound : ∀ c ∈ UniqueName.counts (d.entries.map Prod.fst) cand, c < 2147483647)
    (hm : UniqueName.maxOf? (UniqueName.counts (d.entries.map Prod.fst) cand) = some m) :
    ∃ i, (UniqueName.add_entry_with_unique_name d id cand).entries
        = insertA d.entries (cand ++ ' ' :: '#' :: UniqueName.numChars i) id ∧
      1 ≤ i ∧ i ∉ UniqueName.counts (d.entries.map Prod.fst) cand ∧
      ∀ k, 1 ≤ k → k < i → k ∈ UniqueName.counts (d.entries.map Prod.fst) cand := by
  obtain ⟨i, heq, h1, _, h2, h3⟩ := UniqueName.gen_min (d.entries.map Prod.fst) cand m hm
  refine ⟨i, ?_, h1, h2, h3⟩
  rw [UniqueName.add_entry_with_unique_name, UniqueName.get_new_unique_name, heq]

/-- Witness for `c2_smallest_free_suffix` at the directory containing only
"a note" with candidate "a note". -/
theorem c2_smallest_free_suffix_witness :
    ∃ i, (UniqueName.add_entry_with_unique_name
        { name := "root".data, entries := [("a note".data, 7)] } 9 "a note".data).entries
        = insertA [("a note".data, 7)] ("a note".data ++ ' ' :: '#' :: UniqueName.numChars i) 9 ∧
      1 ≤ i ∧
      i ∉ UniqueName.counts (([("a note".data, 7)] : List (List Char × Nat)).map Prod.fst)
            "a note".data ∧
      ∀ k, 1 ≤ k → k < i →
        k ∈ UniqueName.counts (([("a note".data, 7)] : List (List Char × Nat)).map Prod.fst)
              "a note".data :=
  c2_smallest_free_suffix { name := "root".data, entries := [("a note".data, 7)] }
    9 "a note".data 1 (by decide) (by decide)

/-- C3, counterexample: `generate_unique_name` does not return the candidate
whenever the candidate itself is absent — with existing entries `["x #1"]`
the candidate "x" is absent, yet the function returns "x #2" (the sibling
"x #1" makes the count set `{1}` non-empty, so the loop appends a suffix). -/
theorem c3_candidate_not_returned :
    "x".data ∉ (["x #1".data] : List (List Char)) ∧
    UniqueName.generate_unique_name ["x #1".data] "x".data ≠ "x".data ∧
    UniqueName.generate_unique_name ["x #1".data] "x".data = "x #2".data := by
  decide

/-- C3 (amended): `generate_unique_name` over a directory's entry names
returns a name that is not already present among the entries (for inputs
whose occupied counts stay below `i32::MAX`), and it returns exactly the
candidate whenever NO existing entry matches `^candidate( #(\d+))*$` (the
claim's weaker premise — the candidate itself being absent — does not
suffice). -/
theorem c3_unique_name_fresh (d : UniqueName.DirectoryS) (cand : List Char)
    (hbound : ∀ c ∈ UniqueName.counts (d.entries.map Prod.fst) cand, c < 2147483647) :
    UniqueName.get_new_unique_name d cand ∉ d.entries.map Prod.fst ∧
    (UniqueName.counts (d.entries.map Prod.fst) cand = [] →
      UniqueName.get_new_unique_name d cand = cand) := by
  constructor
  · exact UniqueName.gen_not_mem (d.entries.map Prod.fst) cand hbound
  · intro h
    exact UniqueName.gen_of_counts_nil (d.entries.map Prod.fst) cand h

/-- Witness for `c3_unique_name_fresh` at the directory containing only
"a note" with candidate "a note". -/
theorem c3_unique_name_fresh_witness :
    UniqueName.get_new_unique_name { name := "root".data, entries := [("a note".data, 7)] }
        "a note".data
      ∉ (([("a note".data, 7)] : List (List Char × Nat)).map Prod.fst) ∧
    (UniqueName.counts (([("a note".data, 7)] : List (List Char × Nat)).map Prod.fst)
        "a note".data = [] →
      UniqueName.get_new_unique_name { name := "root".data, entries := [("a note".data, 7)] }
          "a note".data
        = "a note".data) :=
  c3_unique_name_fresh { name := "root".data, entries := [("a note".data, 7)] }
    "a note".data (by decide)

/-! ### Storage lemmas -/

theorem lookupA_mem {κ α : Type} [DecidableEq κ] (l : List (κ × α)) (k : κ) (v : α)
    (h : lookupA l k = some v) : (k, v) ∈ l := by
  induction l with
  | nil => simp [lookupA] at h
  | cons e rest ih =>
    rw [lookupA] at h
    by_cases he : e.1 = k
    · rw [if_pos he, Option.some_inj] at h
      subst h
      subst he
      simp
    · rw [if_neg he] at h
      exact List.mem_cons_of_mem e (ih h)

theorem mem_updateA {κ α : Type} [DecidableEq κ] (l : List (κ × α)) (k : κ) (f : α → α) :
    ∀ e ∈ updateA l k f, e ∈ l ∨ (e.1 = k ∧ ∃ v, (e.1, v) ∈ l ∧ e.2 = f v) := by
  induction l with
  | nil => intro e he; simp [updateA] at he
  | cons e0 rest ih =>
    intro e he
    rw [updateA] at he
    by_cases h0 : e0.1 = k
    · rw [if_pos h0] at he
      rcases List.mem_cons.mp he with h | h
      · subst h
        exact Or.inr ⟨h0, e0.2, by simp, rfl⟩
      · exact Or.inl (List.mem_cons_of_mem e0 h)
    · rw [if_neg h0] at he
      rcases List.mem_cons.mp he with h | h
      · exact Or.inl (by rw [h]; exact List.mem_cons_self e0 rest)
      · rcases ih e h with h1 | ⟨hek, v, hv, he2⟩
        · exact Or.inl (List.mem_cons_of_mem e0 h1)
        · exact Or.inr ⟨hek, v, List.mem_cons_of_mem e0 hv, he2⟩

namespace Store

theorem id_of_lookup {V : Type} (objs : List (Nat × DataNodeM V)) (k : Nat) (m : DataNodeM V)
    (hkey : ∀ e ∈ objs, e.2.id = e.1) (h : lookupA objs k = some m) : m.id = k :=
  hkey (k, m) (lookupA_mem objs k m h)

theorem hkey_deleteObject {V : Type} (s : StorageM V) (cid now : Nat)
    (hkey : ∀ e ∈ s.objects, e.2.id = e.1) :
    ∀ e ∈ (deleteObject s cid now).objects, e.2.id = e.1 := by
  intro e he
  rcases mem_updateA s.objects cid (fun n => n.deleteAt now) e he with h | ⟨_, v, hv, he2⟩
  · exact hkey e h
  · rw [he2]
    exact hkey (e.1, v) hv

theorem hkey_restoreObject {V : Type} (s : StorageM V) (cid : Nat)
    (hkey : ∀ e ∈ s.objects, e.2.id = e.1) :
    ∀ e ∈ (restoreObject s cid).objects, e.2.id = e.1 := by
  intro e he
  rcases mem_updateA s.objects cid DataNodeM.restoreNode e he with h | ⟨_, v, hv, he2⟩
  · exact hkey e h
  · rw [he2]
    exact hkey (e.1, v) hv

theorem isSome_updateA {V : Type} (objs : List (Nat × DataNodeM V)) (k c : Nat)
    (f : DataNodeM V → DataNodeM V) (h : (lookupA objs c).isSome = true) :
    (lookupA (updateA objs k f) c).isSome = true := by
  by_cases hc : c = k
  · subst hc
    rw [lookupA_updateA_self]
    cases hl : lookupA objs c
    · rw [hl] at h; simp at h
    · rfl
  · rw [lookupA_updateA_ne objs k c f hc]
    exact h

theorem resolveAll_isSome {V : Type} (objs : List (Nat × DataNodeM V)) :
    ∀ cs : List Nat, (∀ c ∈ cs, (lookupA objs c).isSome = true) →
    ∃ l, resolveAll objs cs = some l := by
  intro cs
  induction cs with
  | nil => intro _; exact ⟨[], rfl⟩
  | cons c rest ih =>
    intro h
    obtain ⟨n, hn⟩ := Option.isSome_iff_exists.mp (h c (List.mem_cons_self c rest))
    obtain ⟨l, hl⟩ := ih (fun c hc => h c (List.mem_cons_of_mem _ hc))
    exact ⟨n :: l, by rw [resolveAll, hn, hl]; rfl⟩

theorem resolveAll_mem {V : Type} (objs : List (Nat × DataNodeM V)) :
    ∀ (cs : List Nat) (l : List (DataNodeM V)), resolveAll objs cs = some l →
    ∀ nd ∈ l, ∃ c ∈ cs, lookupA objs c = some nd := by
  intro cs
  induction cs with
  | nil =>
    intro l hl nd hnd
    rw [resolveAll, Option.some_inj] at hl
    subst hl
    cases hnd
  | cons c rest ih =>
    intro l hl nd hnd
    rw [resolveAll] at hl
    cases hc : lookupA objs c with
    | none => simp [hc] at hl
    | some n =>
      cases hrest : resolveAll objs rest with
      | none => simp [hc, hrest] at hl
      | some l0 =>
        simp only [hc, hrest, Option.map_some', Option.some_inj] at hl
        subst hl
        rcases List.mem_cons.mp hnd with h | h
        · subst h
          exact ⟨c, List.mem_cons_self c rest, hc⟩
        · obtain ⟨c', hc', hlook⟩ := ih l0 hrest nd h
          exact ⟨c', List.mem_cons_of_mem c hc', hlook⟩

theorem resolveAll_mem_of {V : Type} (objs : List (Nat × DataNodeM V)) :
    ∀ (cs : List Nat) (l : List (DataNodeM V)) (c : Nat) (nd : DataNodeM V),
    resolveAll objs cs = some l → c ∈ cs → lookupA objs c = some nd → nd ∈ l := by
  intro cs
  induction cs with
  | nil => intro l c nd _ hc; cases hc
  | cons c0 rest ih =>
    intro l c nd hl hc hlook
    rw [resolveAll] at hl
    cases hc0 : lookupA objs c0 with
    | none => simp [hc0] at hl
    | some n0 =>
      cases hrest : resolveAll objs rest with
      | none => simp [hc0, hrest] at hl
      | some l0 =>
        simp only [hc0, hrest, Option.map_some', Option.some_inj] at hl
        subst hl
        rcases List.mem_cons.mp hc with h | h
        · subst h
          rw [hlook, Option.some_inj] at hc0
          subst hc0
          simp
        · exact List.mem_cons_of_mem n0 (ih l0 c nd hrest h hlook)

theorem resolveEntries_isSome {V : Type} (objs : List (Nat × DataNodeM V)) :
    ∀ es : List (String × Nat), (∀ e ∈ es, (lookupA objs e.2).isSome = true) →
    ∃ l, resolveEntries objs es = some l := by
  intro es
  induction es with
  | nil => intro _; exact ⟨[], rfl⟩
  | cons e rest ih =>
    intro h
    obtain ⟨n, hn⟩ := Option.isSome_iff_exists.mp (h e (List.mem_cons_self e rest))
    obtain ⟨l, hl⟩ := ih (fun e he => h e (List.mem_cons_of_mem _ he))
    exact ⟨(e.1, n) :: l, by rw [resolveEntries, hn, hl]; rfl⟩

theorem resolveEntries_mem_of {V : Type} (objs : List (Nat × DataNodeM V)) :
    ∀ (es : List (String × Nat)) (l : List (String × DataNodeM V)) (nm : String)
      (i : Nat) (nd : DataNodeM V),
    resolveEntries objs es = some l → (nm, i) ∈ es → lookupA objs i = some nd →
    (nm, nd) ∈ l := by
  intro es
  induction es with
  | nil => intro l nm i nd _ hm; cases hm
  | cons e rest ih =>
    intro l nm i nd hl hm hlook
    rw [resolveEntries] at hl
    cases he : lookupA objs e.2 with
    | none => simp [he] at hl
    | some n0 =>
      cases hrest : resolveEntries objs rest with
      | none => simp [he, hrest] at hl
      | some l0 =>
        simp only [he, hrest, Option.map_some', Option.some_inj] at hl
        subst hl
        rcases List.mem_cons.mp hm with h | h
        · have he1 : e.1 = nm := by rw [← h]
          have he2 : e.2 = i := by rw [← h]
          rw [he2, hlook, Option.some_inj] at he
          subst he
          rw [he1]
          simp
        · exact List.mem_cons_of_mem (e.1, n0) (ih l0 nm i nd hrest h hlook)

theorem resolveEntries_panic {V : Type} (objs : List (Nat × DataNodeM V)) :
    ∀ es : List (String × Nat), (∃ e ∈ es, lookupA objs e.2 = none) →
    resolveEntries objs es = none := by
  intro es
  induction es with
  | nil => intro ⟨e, he, _⟩; cases he
  | cons e0 rest ih =>
    intro ⟨e, he, hnone⟩
    rw [resolveEntries]
    rcases List.mem_cons.mp he with h | h
    · subst h
      rw [hnone]
    · cases h0 : lookupA objs e0.2 with
      | none => rfl
      | some n => rw [ih ⟨e, h, hnone⟩]; rfl

theorem sub_dirs_exclude {V : Type} (s : StorageM V) (pid cid : Nat) (cs : List Nat)
    (hcs : s.dir_tree.getChildren pid = some cs)
    (hres : ∀ c ∈ cs, (lookupA s.objects c).isSome = true)
    (hdel : ∀ nd, lookupA s.objects cid = some nd → nd.is_deleted = true)
    (hkey : ∀ e ∈ s.objects, e.2.id = e.1) :
    ∃ l, get_sub_directories s pid = some (some l) ∧ ∀ mm ∈ l, mm.id ≠ cid := by
  obtain ⟨l0, hl0⟩ := resolveAll_isSome s.objects cs hres
  refine ⟨l0.filter (fun n => !n.is_deleted), ?_, ?_⟩
  · rw [get_sub_directories, hcs, Option.map_some', hl0, Option.map_some']
  · intro mm hmm
    obtain ⟨hml, hflt⟩ := List.mem_filter.mp hmm
    obtain ⟨c, hc, hlook⟩ := resolveAll_mem s.objects cs l0 hl0 mm hml
    intro hid
    have hcc : c = cid := by rw [← hid]; exact (id_of_lookup s.objects c mm hkey hlook).symm
    subst hcc
    rw [hdel mm hlook] at hflt
    cases hflt
end Store

/-! ### Claim C7: soft delete is a pure flag -/

/-- C7: for a stored object `cid`, `delete` (via `get_object_mut(id).map(DataNode::delete)`)
sets only the deletion timestamp: the tree is unaltered, every other object is
untouched, the object itself changes only in `deletion_time` and is still
returned by `get_object`; while deleted, `get_sub_directories(parent)`
excludes it; after `restore` clears the timestamp, `get_sub_directories`
includes it again. -/
theorem c7_soft_delete_frame {V : Type} (s : Store.StorageM V) (pid cid now : Nat)
    (cs : List Nat) (n : Store.DataNodeM V)
    (hcs : s.dir_tree.getChildren pid = some cs)
    (hmem : cid ∈ cs)
    (hres : ∀ c ∈ cs, (lookupA s.objects c).isSome = true)
    (hn : lookupA s.objects cid = some n)
    (hkey : ∀ e ∈ s.objects, e.2.id = e.1) :
    (Store.deleteObject s cid now).dir_tree = s.dir_tree ∧
    (∀ q, q ≠ cid →
      Store.get_object (Store.deleteObject s cid now) q = Store.get_object s q) ∧
    Store.get_object (Store.deleteObject s cid now) cid = some (n.deleteAt now) ∧
    (∃ l, Store.get_sub_directories (Store.deleteObject s cid now) pid = some (some l) ∧
      ∀ mm ∈ l, mm.id ≠ cid) ∧
    (∃ l, Store.get_sub_directories
        (Store.restoreObject (Store.deleteObject s cid now) cid) pid = some (some l) ∧
      ∃ mm ∈ l, mm.id = cid) := by
  have hres1 : ∀ c ∈ cs, (lookupA (Store.deleteObject s cid now).objects c).isSome = true :=
    fun c hc => Store.isSome_updateA s.objects cid c _ (hres c hc)
  have hkey1 := Store.hkey_deleteObject s cid now hkey
  refine ⟨rfl, ?_, ?_, ?_, ?_⟩
  · intro q hq
    exact lookupA_updateA_ne s.objects cid q _ hq
  · show lookupA (updateA s.objects cid _) cid = _
    rw [lookupA_updateA_self, hn, Option.map_some']
  · refine Store.sub_dirs_exclude _ pid cid cs hcs hres1 ?_ hkey1
    intro nd hnd
    rw [show lookupA (Store.deleteObject s cid now).objects cid
        = (lookupA s.objects cid).map (fun m => m.deleteAt now)
      from lookupA_updateA_self s.objects cid _, hn, Option.map_some',
      Option.some_inj] at hnd
    rw [← hnd]
    rfl
  · have hlook2 : lookupA (Store.restoreObject (Store.deleteObject s cid now) cid).objects cid
        = some ((n.deleteAt now).restoreNode) := by
      show lookupA (updateA (updateA s.objects cid (fun m => m.deleteAt now)) cid
        Store.DataNodeM.restoreNode) cid = _
      rw [lookupA_updateA_self, lookupA_updateA_self, hn]
      rfl
    have hres2 : ∀ c ∈ cs,
        (lookupA (Store.restoreObject (Store.deleteObject s cid now) cid).objects c).isSome
          = true :=
      fun c hc => Store.isSome_updateA _ cid c _ (hres1 c hc)
    obtain ⟨l2, hl2⟩ := Store.resolveAll_isSome
      (Store.restoreObject (Store.deleteObject s cid now) cid).objects cs hres2
    have hmm : (n.deleteAt now).restoreNode ∈ l2 :=
      Store.resolveAll_mem_of _ cs l2 cid _ hl2 hmem hlook2
    refine ⟨l2.filter (fun m => !m.is_deleted), ?_, ?_⟩
    · rw [Store.get_sub_directories,
        show (Store.restoreObject (Store.deleteObject s cid now) cid).dir_tree.getChildren pid
          = some cs from hcs, Option.map_some', hl2, Option.map_some']
    · refine ⟨(n.deleteAt now).restoreNode, ?_, ?_⟩
      · exact List.mem_filter.mpr ⟨hmm, rfl⟩
      · show n.id = cid
        exact Store.id_of_lookup s.objects cid n hkey hn

/-- Witness for `c7_soft_delete_frame` at the concrete two-directory storage,
soft-deleting the sub-directory with id 2 at instant 5. -/
theorem c7_soft_delete_frame_witness :
    (Store.deleteObject Store.wStorage 2 5).dir_tree = Store.wStorage.dir_tree ∧
    (∀ q, q ≠ 2 →
      Store.get_object (Store.deleteObject Store.wStorage 2 5) q
        = Store.get_object Store.wStorage q) ∧
    Store.get_object (Store.deleteObject Store.wStorage 2 5) 2
      = some (Store.wSubNode.deleteAt 5) ∧
    (∃ l, Store.get_sub_directories (Store.deleteObject Store.wStorage 2 5) 1
        = some (some l) ∧ ∀ mm ∈ l, mm.id ≠ 2) ∧
    (∃ l, Store.get_sub_directories
        (Store.restoreObject (Store.deleteObject Store.wStorage 2 5) 2) 1
        = some (some l) ∧ ∃ mm ∈ l, mm.id = 2) :=
  c7_soft_delete_frame Store.wStorage 1 2 5 [2] Store.wSubNode (by decide) (by decide)
    (by decide) (by decide) (by decide)

/-! ### Claim C9: `dir_objects` does not filter on deletion state -/

/-- C9: `dir_objects(dir_id)` resolves every named entry of the directory
without filtering on deletion state (a soft-deleted object still appears),
in contrast to `get_sub_directories(dir_id)` which excludes soft-deleted
children; and `dir_objects` panics (modelled as the inner `none`) when any
entry id is absent from the global object map. -/
theorem c9_dir_objects_unfiltered {V : Type} (s : Store.StorageM V) (dirId : Nat)
    (dn : Store.DataNodeM V) (d : Store.DirectoryM)
    (hdn : lookupA s.objects dirId = some dn) (hd : dn.data = .dir d) :
    ((∀ e ∈ d.entries, (lookupA s.objects e.2).isSome = true) →
      ∃ l, Store.dir_objects s dirId = some (some l) ∧
        ∀ e ∈ d.entries, ∃ nd, lookupA s.objects e.2 = some nd ∧ (e.1, nd) ∈ l) ∧
    ((∃ e ∈ d.entries, lookupA s.objects e.2 = none) →
      Store.dir_objects s dirId = some none) ∧
    (∀ cs nm cid cnode,
      s.dir_tree.getChildren dirId = some cs → cid ∈ cs →
      (∀ c ∈ cs, (lookupA s.objects c).isSome = true) →
      (∀ e ∈ d.entries, (lookupA s.objects e.2).isSome = true) →
      (nm, cid) ∈ d.entries → lookupA s.objects cid = some cnode →
      cnode.is_deleted = true →
      (∀ e ∈ s.objects, e.2.id = e.1) →
      (∃ l, Store.dir_objects s dirId = some (some l) ∧ (nm, cnode) ∈ l) ∧
      (∃ l2, Store.get_sub_directories s dirId = some (some l2) ∧
        ∀ mm ∈ l2, mm.id ≠ cid)) := by
  have hdo : Store.dir_objects s dirId = some (Store.resolveEntries s.objects d.entries) := by
    rw [Store.dir_objects, hdn, Option.some_bind, hd]
  refine ⟨?_, ?_, ?_⟩
  · intro hresE
    obtain ⟨l, hl⟩ := Store.resolveEntries_isSome s.objects d.entries hresE
    refine ⟨l, by rw [hdo, hl], ?_⟩
    intro e he
    obtain ⟨nd, hnd⟩ := Option.isSome_iff_exists.mp (hresE e he)
    exact ⟨nd, hnd, Store.resolveEntries_mem_of s.objects d.entries l e.1 e.2 nd hl
      (by rw [show ((e.1, e.2) : String × Nat) = e from rfl]; exact he) hnd⟩
  · intro hmissing
    rw [hdo, Store.resolveEntries_panic s.objects d.entries hmissing]
  · intro cs nm cid cnode hcs hcmem hresC hresE hentry hcnode hdel hkey
    constructor
    · obtain ⟨l, hl⟩ := Store.resolveEntries_isSome s.objects d.entries hresE
      exact ⟨l, by rw [hdo, hl],
        Store.resolveEntries_mem_of s.objects d.entries l nm cid cnode hl hentry hcnode⟩
    · refine Store.sub_dirs_exclude s dirId cid cs hcs hresC ?_ hkey
      intro nd hnd
      rw [hcnode, Option.some_inj] at hnd
      rw [← hnd]
      exact hdel

/-- Witness for `c9_dir_objects_unfiltered`: in the storage whose
sub-directory (id 2, entry name "sub") is soft-deleted, `dir_objects 1`
still lists it while `get_sub_directories 1` excludes it; in the storage
whose root entry "ghost" points at the missing id 99, `dir_objects 1`
panics. -/
theorem c9_dir_objects_unfiltered_witness :
    ((∃ l, Store.dir_objects Store.wStorageDeleted 1 = some (some l) ∧
        (("sub" : String), Store.wSubNodeDeleted) ∈ l) ∧
      (∃ l2, Store.get_sub_directories Store.wStorageDeleted 1 = some (some l2) ∧
        ∀ mm ∈ l2, mm.id ≠ 2)) ∧
    Store.dir_objects Store.wStorageDangling 1 = some none :=
  ⟨(c9_dir_objects_unfiltered Store.wStorageDeleted 1 Store.wRootNode
      { name := "root", entries := [("sub", 2)] } (by decide) rfl).2.2
      [2] "sub" 2 Store.wSubNodeDeleted (by decide) (by decide) (by decide) (by decide)
      (by decide) (by decide) (by decide) (by decide),
    (c9_dir_objects_unfiltered Store.wStorageDangling 1 Store.wRootDangling
      { name := "root", entries := [("ghost", 99)] } (by decide) rfl).2.1
      ⟨("ghost", 99), by decide, by decide⟩⟩

/-! ### Claim C4: idempotence of pending reads -/

theorem readNoteE_inMemory (s : EguiApp.EState) (p : String)
    (h : EguiApp.noteInMemoryE s p = true) : EguiApp.readNoteE s p = s := by
  rw [EguiApp.readNoteE, if_pos h]

/-- C4: `read_note_in_background` is a complete no-op whenever any cell
already exists for the path (`note_in_memory` is `contains_key`); from a
state with no cell, one call inserts `PendingRead` and submits exactly one
more load job, and a second call before completion changes nothing, leaving
exactly one new outstanding load job. -/
theorem c4_read_idempotent (s : EguiApp.EState) (p : String) :
    (EguiApp.noteInMemoryE s p = true → EguiApp.readNoteE s p = s) ∧
    (EguiApp.noteInMemoryE s p = false →
      EguiApp.readNoteE (EguiApp.readNoteE s p) p = EguiApp.readNoteE s p ∧
      EguiApp.countLoad (EguiApp.readNoteE s p).jobs p
        = EguiApp.countLoad s.jobs p + 1) := by
  constructor
  · exact readNoteE_inMemory s p
  · intro h
    have hs1 : EguiApp.readNoteE s p =
        { notes := insertA s.notes p .pendingRead,
          channels := ensureChannel s.channels p,
          jobs := s.jobs ++ [.load p] } := by
      simp [EguiApp.readNoteE, h]
    have hmem : EguiApp.noteInMemoryE (EguiApp.readNoteE s p) p = true := by
      rw [hs1]
      simp [EguiApp.noteInMemoryE, lookupA_insertA_self]
    constructor
    · exact readNoteE_inMemory _ p hmem
    · rw [hs1]
      simp [EguiApp.countLoad, List.filter_append]

/-- Witness for `c4_read_idempotent`: a fresh state with no cells, and a
state already holding a pending cell for "k". -/
theorem c4_read_idempotent_witness :
    (EguiApp.readNoteE { notes := [("k", .pendingRead)], channels := [], jobs := [] } "k"
      = { notes := [("k", .pendingRead)], channels := [], jobs := [] }) ∧
    (EguiApp.readNoteE (EguiApp.readNoteE { notes := [], channels := [], jobs := [] } "k") "k"
      = EguiApp.readNoteE { notes := [], channels := [], jobs := [] } "k" ∧
    EguiApp.countLoad
        (EguiApp.readNoteE { notes := [], channels := [], jobs := [] } "k").jobs "k"
      = EguiApp.countLoad (EguiApp.EState.jobs { notes := [], channels := [], jobs := [] }) "k"
        + 1) :=
  ⟨(c4_read_idempotent { notes := [("k", .pendingRead)], channels := [], jobs := [] } "k").1
      rfl,
    (c4_read_idempotent { notes := [], channels := [], jobs := [] } "k").2 rfl⟩

/-! ### Claim C6: no at-most-one-outstanding-write discipline -/

/-- C6, counterexample: from a state whose only cell is `Value` for "k" and
with no queued jobs, two consecutive `save_note_in_background("k")` calls both
submit (neither is queued, rejected, or dropped), leaving two outstanding
write jobs for "k" — more than one. -/
theorem c6_two_outstanding_saves :
    (EguiApp.saveTwice
        { notes := [("k", .value { text := "T0", dirty := true })],
          channels := [], jobs := [] } "k").map (fun s => EguiApp.countSave s.jobs "k")
      = some 2 ∧
    ¬ (2 : Nat) ≤ 1 := by
  decide

/-- C6 (amended): `save_note_in_background` submits unconditionally — while a
write for `p` is in flight, a second call clones the same in-memory value and
submits a second concurrent write job on the same key (sharing the per-key
channel), so the number of outstanding write jobs for `p` grows to two;
neither call is queued behind the other, rejected, or dropped, and the cache
cells are untouched. -/
theorem c6_second_save_duplicates (s : EguiApp.EState) (p : String) (v : NoteNode)
    (hv : lookupA s.notes p = some (.value v)) :
    ∃ s1 s2, EguiApp.saveNoteE s p = some s1 ∧ EguiApp.saveNoteE s1 p = some s2 ∧
      s1.jobs = s.jobs ++ [.save p v] ∧
      s2.jobs = s.jobs ++ [.save p v] ++ [.save p v] ∧
      EguiApp.countSave s2.jobs p = EguiApp.countSave s.jobs p + 2 ∧
      s2.notes = s.notes := by
  have hget : EguiApp.getNoteE s p = some v := by
    rw [EguiApp.getNoteE, hv]
    rfl
  have h1 : EguiApp.saveNoteE s p = some
      { s with channels := ensureChannel s.channels p, jobs := s.jobs ++ [.save p v] } := by
    rw [EguiApp.saveNoteE, hget]
  have hget1 : EguiApp.getNoteE
      { s with channels := ensureChannel s.channels p, jobs := s.jobs ++ [.save p v] } p
      = some v := by
    rw [EguiApp.getNoteE]
    show (lookupA s.notes p).bind _ = _
    rw [hv]
    rfl
  have h2 : EguiApp.saveNoteE
      { s with channels := ensureChannel s.channels p, jobs := s.jobs ++ [.save p v] } p
      = some
      { s with channels := ensureChannel (ensureChannel s.channels p) p,
               jobs := s.jobs ++ [.save p v] ++ [.save p v] } := by
    rw [EguiApp.saveNoteE, hget1]
  refine ⟨_, _, h1, h2, rfl, rfl, ?_, rfl⟩
  simp [EguiApp.countSave, List.filter_append]

/-- Witness for `c6_second_save_duplicates` at the concrete one-cell state. -/
theorem c6_second_save_duplicates_witness :
    ∃ s1 s2, EguiApp.saveNoteE
        { notes := [("k", .value { text := "T0", dirty := true })],
          channels := [], jobs := [] } "k" = some s1 ∧
      EguiApp.saveNoteE s1 "k" = some s2 ∧
      s1.jobs = [] ++ [.save "k" { text := "T0", dirty := true }] ∧
      s2.jobs = [] ++ [.save "k" { text := "T0", dirty := true }]
        ++ [.save "k" { text := "T0", dirty := true }] ∧
      EguiApp.countSave s2.jobs "k" = EguiApp.countSave ([] : List NoteJob) "k" + 2 ∧
      s2.notes = [("k", .value { text := "T0", dirty := true })] :=
  c6_second_save_duplicates
    { notes := [("k", .value { text := "T0", dirty := true })], channels := [], jobs := [] }
    "k" { text := "T0", dirty := true } (by decide)

/-! ### SrcApp poll lemmas -/

namespace SrcApp

theorem foldl_applyMsg_ne (p q : String) (h : q ≠ p) (msgs : List Msg) :
    ∀ acc, lookupA (msgs.foldl (applyMsg q) acc).1 p = lookupA acc.1 p := by
  induction msgs with
  | nil => intro acc; rfl
  | cons m rest ih =>
    intro acc
    rw [List.foldl_cons, ih]
    cases m with
    | ok n => exact lookupA_insertA_ne acc.1 q p _ (Ne.symm h)
    | error e => rfl

theorem pollAll_quiet (p : String) : ∀ (chans : List (String × List Msg))
    (acc : List (String × MemoryCell NoteNode) × List String),
    (∀ e ∈ chans, e.1 = p → e.2 = []) →
    lookupA (pollAll acc chans).1 p = lookupA acc.1 p := by
  intro chans
  induction chans with
  | nil => intro acc _; rfl
  | cons e rest ih =>
    intro acc h
    show lookupA (pollAll (e.2.foldl (applyMsg e.1) acc) rest).1 p = _
    rw [ih _ (fun e2 he2 => h e2 (List.mem_cons_of_mem e he2))]
    by_cases hq : e.1 = p
    · rw [h e (List.mem_cons_self e rest) hq]
      rfl
    · exact foldl_applyMsg_ne p e.1 hq e.2 acc

end SrcApp

/-! ### Claim C1: the save/edit race loses the edit -/

/-- C1: evaluation of the claimed scenario at a concrete input.  Starting
from the cell `Value { text := "T0", dirty := false }` for "k": `set_dirty`,
then `save_note_in_background` (capturing the clone with text "T0"), then an
edit to "T1" plus a second `set_dirty` before the save completion is polled.
When `poll_notes_tasks` processes the successful save completion it replaces
the cell with the submission-time snapshot returned by `save_note`: the dirty
flag is `false` (not `true` as claimed) and the in-memory text is back to
"T0" (the post-submit edit "T1" is lost), contradicting the claim. -/
theorem c1_save_race_loses_edit :
    (SrcApp.saveEditRace
        { notes := [("k", .value { text := "T0", dirty := false })],
          channels := [], jobs := [], errorMsg := [] } "k"
        (fun n => { n with text := "T1" }) "").map
        (fun s => (SrcApp.noteIsDirty s "k", SrcApp.getNote s "k"))
      = some (false, some { text := "T0", dirty := false }) ∧
    ¬ ((SrcApp.saveEditRace
        { notes := [("k", .value { text := "T0", dirty := false })],
          channels := [], jobs := [], errorMsg := [] } "k"
        (fun n => { n with text := "T1" }) "").map
        (fun s => (SrcApp.noteIsDirty s "k", (SrcApp.getNote s "k").map (fun n => n.text)))
      = some (true, some "T1")) := by
  decide

/-! ### Claim C5: I/O failures are buffered, not recorded in the cell -/

/-- C5, counterexample: in `src/app.rs` the `MemoryCell` type has only
`PendingRead` and `Value` — polling a failed save for "k" leaves the cell
exactly as it was (still `Value { text := "T0", dirty := true }`, no error
variant is recorded), while the error message is buffered in `error_msg`. -/
theorem c5_no_error_variant_recorded :
    (SrcApp.saveFailThenPoll
        { notes := [("k", .value { text := "T0", dirty := true })],
          channels := [], jobs := [], errorMsg := [] } "k" "boom").map
        (fun s => (lookupA s.notes "k", s.errorMsg))
      = some (some (.value { text := "T0", dirty := true }), ["boom"]) ∧
    (SrcApp.saveFailThenPoll
        { notes := [("k", .value { text := "T0", dirty := true })],
          channels := [], jobs := [], errorMsg := [] } "k" "boom").map
        (fun s => lookupA s.notes "k")
      = some (lookupA [(("k" : String),
          SrcApp.MemoryCell.value { text := "T0", dirty := true })] "k") := by
  decide

/-- C5 (amended): when a background load or save for `p` completes with an
I/O error and is polled, the cell for `p` is left unchanged (the `MemoryCell`
of `src/app.rs` has no error variants): a failed save leaves the last good
in-memory value with its dirty flag intact, a failed load leaves the
`PendingRead` cell; in both cases the error message is appended to the
drainable `error_msg` list instead of being raised. -/
theorem c5_error_buffered_cell_unchanged (s : SrcApp.AppState) (p m : String)
    (hjobs : s.jobs = []) (hchan : s.channels = []) :
    (∀ v : NoteNode, lookupA s.notes p = some (.value v) →
      ∃ sEnd, SrcApp.saveFailThenPoll s p m = some sEnd ∧
        lookupA sEnd.notes p = some (.value v) ∧
        SrcApp.noteIsDirty sEnd p = v.dirty ∧
        sEnd.errorMsg = s.errorMsg ++ [m]) ∧
    (lookupA s.notes p = none →
      ∃ sEnd, SrcApp.loadFailThenPoll s p m = some sEnd ∧
        lookupA sEnd.notes p = some .pendingRead ∧
        sEnd.errorMsg = s.errorMsg ++ [m]) := by
  rcases s with ⟨notes, chans, jobs, errs⟩
  dsimp only at hjobs hchan
  subst hjobs
  subst hchan
  have hpp : lookupA ([((p : String), ([] : List Msg))]) p = some [] := by
    simp [lookupA]
  have hpush : pushChan [((p : String), ([] : List Msg))] p (Except.error (m : String))
      = [(p, [Except.error m])] := by
    rw [pushChan, hpp]
    simp [updateA]
  constructor
  · intro v hv
    dsimp only at hv
    have hget : SrcApp.getNote
        { notes := notes, channels := [], jobs := [], errorMsg := errs } p = some v := by
      rw [SrcApp.getNote]
      dsimp only
      rw [hv]
      rfl
    have h1 : SrcApp.saveNoteInBackground
        { notes := notes, channels := [], jobs := [], errorMsg := errs } p = some
        { notes := notes, channels := [(p, [])], jobs := [.save p v], errorMsg := errs } := by
      rw [SrcApp.saveNoteInBackground, hget]
      rfl
    have h2 : SrcApp.completeJob
        { notes := notes, channels := [(p, [])], jobs := [NoteJob.save p v],
          errorMsg := errs } (.failure m) = some
        { notes := notes, channels := [(p, [Except.error m])], jobs := [],
          errorMsg := errs } := by
      rw [SrcApp.completeJob]
      dsimp only
      rw [show runJob (NoteJob.save p v) (.failure m) = Except.error m from rfl,
        show (NoteJob.save p v).key = p from rfl, hpush]
    have h3 : SrcApp.pollNotes
        { notes := notes, channels := [(p, [Except.error m])], jobs := [],
          errorMsg := errs } =
        { notes := notes, channels := [(p, [])], jobs := [], errorMsg := errs ++ [m] } := by
      rw [SrcApp.pollNotes]
      rfl
    have hrun : SrcApp.saveFailThenPoll
        { notes := notes, channels := [], jobs := [], errorMsg := errs } p m = some
        { notes := notes, channels := [(p, [])], jobs := [], errorMsg := errs ++ [m] } := by
      rw [SrcApp.saveFailThenPoll, h1, Option.some_bind, h2, Option.map_some', h3]
    refine ⟨_, hrun, ?_, ?_, ?_⟩
    · exact hv
    · show SrcApp.noteIsDirty
        { notes := notes, channels := [(p, [])], jobs := [], errorMsg := errs ++ [m] } p
        = v.dirty
      rw [SrcApp.noteIsDirty, SrcApp.getNote]
      dsimp only
      rw [hv]
      rfl
    · rfl
  · intro hv
    dsimp only at hv
    have hmem : SrcApp.noteInMemory
        { notes := notes, channels := [], jobs := [], errorMsg := errs } p = false := by
      rw [SrcApp.noteInMemory]
      dsimp only
      rw [hv]
      rfl
    have h1 : SrcApp.readNoteInBackground
        { notes := notes, channels := [], jobs := [], errorMsg := errs } p =
        { notes := insertA notes p .pendingRead, channels := [(p, [])],
          jobs := [.load p], errorMsg := errs } := by
      rw [SrcApp.readNoteInBackground, if_neg (by rw [hmem]; exact Bool.false_ne_true)]
      rfl
    have h2 : SrcApp.completeJob
        { notes := insertA notes p SrcApp.MemoryCell.pendingRead, channels := [(p, [])],
          jobs := [NoteJob.load p], errorMsg := errs } (.failure m) = some
        { notes := insertA notes p SrcApp.MemoryCell.pendingRead,
          channels := [(p, [Except.error m])], jobs := [], errorMsg := errs } := by
      rw [SrcApp.completeJob]
      dsimp only
      rw [show runJob (NoteJob.load p) (.failure m) = Except.error m from rfl,
        show (NoteJob.load p).key = p from rfl, hpush]
    have h3 : SrcApp.pollNotes
        { notes := insertA notes p SrcApp.MemoryCell.pendingRead,
          channels := [(p, [Except.error m])], jobs := [], errorMsg := errs } =
        { notes := insertA notes p SrcApp.MemoryCell.pendingRead, channels := [(p, [])],
          jobs := [], errorMsg := errs ++ [m] } := by
      rw [SrcApp.pollNotes]
      rfl
    have hrun : SrcApp.loadFailThenPoll
        { notes := notes, channels := [], jobs := [], errorMsg := errs } p m = some
        { notes := insertA notes p SrcApp.MemoryCell.pendingRead, channels := [(p, [])],
          jobs := [], errorMsg := errs ++ [m] } := by
      rw [SrcApp.loadFailThenPoll, h1, h2, Option.map_some', h3]
    refine ⟨_, hrun, ?_, ?_⟩
    · exact lookupA_insertA_self notes p _
    · rfl

/-- Witness for `c5_error_buffered_cell_unchanged`: a failed save of "k" from
a dirty `Value` cell, and a failed load of "k" from an empty state. -/
theorem c5_error_buffered_cell_unchanged_witness :
    (∃ sEnd, SrcApp.saveFailThenPoll
        { notes := [("k", .value { text := "T0", dirty := true })],
          channels := [], jobs := [], errorMsg := [] } "k" "boom" = some sEnd ∧
      lookupA sEnd.notes "k" = some (.value { text := "T0", dirty := true }) ∧
      SrcApp.noteIsDirty sEnd "k" = ({ text := "T0", dirty := true } : NoteNode).dirty ∧
      sEnd.errorMsg = ([] : List String) ++ ["boom"]) ∧
    (∃ sEnd, SrcApp.loadFailThenPoll
        { notes := [], channels := [], jobs := [], errorMsg := [] } "k" "boom" = some sEnd ∧
      lookupA sEnd.notes "k" = some SrcApp.MemoryCell.pendingRead ∧
      sEnd.errorMsg = ([] : List String) ++ ["boom"]) :=
  ⟨(c5_error_buffered_cell_unchanged
      { notes := [("k", .value { text := "T0", dirty := true })],
        channels := [], jobs := [], errorMsg := [] } "k" "boom" rfl rfl).1
      { text := "T0", dirty := true } (by decide),
    (c5_error_buffered_cell_unchanged
      { notes := [], channels := [], jobs := [], errorMsg := [] } "k" "boom" rfl rfl).2 rfl⟩

/-! ### Claim C10: a failed load leaves the key stuck in `PendingRead` -/

/-- C10: once the cache is in the stuck shape left by a polled failed load of
`p` (cell `PendingRead`, no outstanding job or buffered message for `p`),
`read_note_in_background(p)` is an exact no-op (so the failed read is never
retried through this interface), `get_note(p)` is `None`, and every modelled
operation preserves the stuck shape, so the cell stays `PendingRead` forever;
moreover that shape is in fact reached by load-failure-then-poll from a state
with no cell for `p`. -/
theorem c10_failed_read_stuck (p : String) :
    (∀ s : SrcApp.AppState, SrcApp.FailedStuck s p →
      SrcApp.readNoteInBackground s p = s ∧
      SrcApp.getNote s p = none ∧
      ∀ (op : SrcApp.Op) (s2 : SrcApp.AppState),
        SrcApp.applyOp s op = some s2 → SrcApp.FailedStuck s2 p) ∧
    (∀ (s0 : SrcApp.AppState) (m : String),
      lookupA s0.notes p = none → s0.jobs = [] → s0.channels = [] →
      ∃ sEnd, SrcApp.loadFailThenPoll s0 p m = some sEnd ∧ SrcApp.FailedStuck sEnd p) := by
  constructor
  · intro s hf
    obtain ⟨hcell, hjobs, hchan⟩ := hf
    have hmem : SrcApp.noteInMemory s p = true := by
      rw [SrcApp.noteInMemory, hcell]
      rfl
    have hread : SrcApp.readNoteInBackground s p = s := by
      rw [SrcApp.readNoteInBackground, if_pos hmem]
    have hget : SrcApp.getNote s p = none := by
      rw [SrcApp.getNote, hcell]
      rfl
    refine ⟨hread, hget, ?_⟩
    intro op s2 hop
    cases op with
    | read q =>
      simp only [SrcApp.applyOp, Option.some_inj] at hop
      subst hop
      by_cases hq : q = p
      · subst hq
        rw [hread]
        exact ⟨hcell, hjobs, hchan⟩
      · rw [SrcApp.readNoteInBackground]
        by_cases hm : SrcApp.noteInMemory s q = true
        · rw [if_pos hm]
          exact ⟨hcell, hjobs, hchan⟩
        · rw [if_neg hm]
          refine ⟨?_, ?_, ?_⟩
          · show lookupA (insertA s.notes q .pendingRead) p = _
            rw [lookupA_insertA_ne s.notes q p _ (Ne.symm hq)]
            exact hcell
          · intro j hj
            rcases List.mem_append.mp hj with h | h
            · exact hjobs j h
            · simp at h
              subst h
              exact hq
          · intro e he heq
            rw [ensureChannel] at he
            by_cases hc : (lookupA s.channels q).isSome = true
            · rw [if_pos hc] at he
              exact hchan e he heq
            · rw [if_neg hc] at he
              rcases List.mem_append.mp he with h | h
              · exact hchan e h heq
              · simp at h
                rw [h]
    | saveOp q =>
      simp only [SrcApp.applyOp] at hop
      by_cases hq : q = p
      · subst hq
        simp [SrcApp.saveNoteInBackground, hget] at hop
      · cases hg : SrcApp.getNote s q with
        | none => simp [SrcApp.saveNoteInBackground, hg] at hop
        | some v =>
          simp only [SrcApp.saveNoteInBackground, hg, Option.some_inj] at hop
          subst hop
          refine ⟨hcell, ?_, ?_⟩
          · intro j hj
            rcases List.mem_append.mp hj with h | h
            · exact hjobs j h
            · simp at h
              subst h
              exact hq
          · intro e he heq
            rw [ensureChannel] at he
            by_cases hc : (lookupA s.channels q).isSome = true
            · rw [if_pos hc] at he
              exact hchan e he heq
            · rw [if_neg hc] at he
              rcases List.mem_append.mp he with h | h
              · exact hchan e h heq
              · simp at h
                rw [h]
    | setD q =>
      simp only [SrcApp.applyOp, Option.some_inj] at hop
      subst hop
      refine ⟨?_, hjobs, hchan⟩
      show lookupA (updateA s.notes q _) p = _
      by_cases hq : q = p
      · subst hq
        rw [lookupA_updateA_self, hcell]
        rfl
      · rw [lookupA_updateA_ne s.notes q p _ (Ne.symm hq)]
        exact hcell
    | modify q f =>
      simp only [SrcApp.applyOp, Option.some_inj] at hop
      subst hop
      refine ⟨?_, hjobs, hchan⟩
      show lookupA (updateA s.notes q _) p = _
      by_cases hq : q = p
      · subst hq
        rw [lookupA_updateA_self, hcell]
        rfl
      · rw [lookupA_updateA_ne s.notes q p _ (Ne.symm hq)]
        exact hcell
    | complete r =>
      simp only [SrcApp.applyOp] at hop
      cases hjl : s.jobs with
      | nil => simp [SrcApp.completeJob, hjl] at hop
      | cons j rest =>
        simp only [SrcApp.completeJob, hjl, Option.some_inj] at hop
        subst hop
        have hkj : j.key ≠ p := hjobs j (by rw [hjl]; exact List.mem_cons_self j rest)
        refine ⟨hcell, ?_, ?_⟩
        · intro j2 hj2
          exact hjobs j2 (by rw [hjl]; exact List.mem_cons_of_mem j hj2)
        · intro e he heq
          rw [pushChan] at he
          by_cases hc : (lookupA s.channels j.key).isSome = true
          · rw [if_pos hc] at he
            rcases mem_updateA s.channels j.key _ e he with h | ⟨hek, _, _, _⟩
            · exact hchan e h heq
            · exact absurd (hek.symm.trans heq) hkj
          · rw [if_neg hc] at he
            rcases List.mem_append.mp he with h | h
            · exact hchan e h heq
            · simp at h
              rw [h] at heq
              exact absurd heq hkj
    | poll =>
      simp only [SrcApp.applyOp, Option.some_inj] at hop
      subst hop
      refine ⟨?_, ?_, ?_⟩
      · show lookupA (SrcApp.pollAll (s.notes, s.errorMsg) s.channels).1 p = _
        rw [SrcApp.pollAll_quiet p s.channels (s.notes, s.errorMsg) hchan]
        exact hcell
      · intro j hj
        exact hjobs j hj
      · intro e he _
        obtain ⟨e0, _, hme⟩ := List.mem_map.mp he
        rw [← hme]
    | popErrs =>
      simp only [SrcApp.applyOp, Option.some_inj] at hop
      subst hop
      exact ⟨hcell, hjobs, hchan⟩
  · intro s0 m hcell hjobs hchan
    rcases s0 with ⟨notes, chans, jobs, errs⟩
    dsimp only at hcell hjobs hchan
    subst hjobs
    subst hchan
    have hpp : lookupA ([((p : String), ([] : List Msg))]) p = some [] := by
      simp [lookupA]
    have hpush : pushChan [((p : String), ([] : List Msg))] p (Except.error (m : String))
        = [(p, [Except.error m])] := by
      rw [pushChan, hpp]
      simp [updateA]
    have hmem : SrcApp.noteInMemory
        { notes := notes, channels := [], jobs := [], errorMsg := errs } p = false := by
      rw [SrcApp.noteInMemory]
      dsimp only
      rw [hcell]
      rfl
    have h1 : SrcApp.readNoteInBackground
        { notes := notes, channels := [], jobs := [], errorMsg := errs } p =
        { notes := insertA notes p .pendingRead, channels := [(p, [])],
          jobs := [.load p], errorMsg := errs } := by
      rw [SrcApp.readNoteInBackground, if_neg (by rw [hmem]; exact Bool.false_ne_true)]
      rfl
    have h2 : SrcApp.completeJob
        { notes := insertA notes p SrcApp.MemoryCell.pendingRead, channels := [(p, [])],
          jobs := [NoteJob.load p], errorMsg := errs } (.failure m) = some
        { notes := insertA notes p SrcApp.MemoryCell.pendingRead,
          channels := [(p, [Except.error m])], jobs := [], errorMsg := errs } := by
      rw [SrcApp.completeJob]
      dsimp only
      rw [show runJob (NoteJob.load p) (.failure m) = Except.error m from rfl,
        show (NoteJob.load p).key = p from rfl, hpush]
    have h3 : SrcApp.pollNotes
        { notes := insertA notes p SrcApp.MemoryCell.pendingRead,
          channels := [(p, [Except.error m])], jobs := [], errorMsg := errs } =
        { notes := insertA notes p SrcApp.MemoryCell.pendingRead, channels := [(p, [])],
          jobs := [], errorMsg := errs ++ [m] } := by
      rw [SrcApp.pollNotes]
      rfl
    have hrun : SrcApp.loadFailThenPoll
        { notes := notes, channels := [], jobs := [], errorMsg := errs } p m = some
        { notes := insertA notes p SrcApp.MemoryCell.pendingRead, channels := [(p, [])],
          jobs := [], errorMsg := errs ++ [m] } := by
      rw [SrcApp.loadFailThenPoll, h1, h2, Option.map_some', h3]
    refine ⟨_, hrun, ?_, ?_, ?_⟩
    · exact lookupA_insertA_self notes p _
    · intro j hj
      simp at hj
    · intro e he _
      simp at he
      rw [he]

/-- Witness for `c10_failed_read_stuck` at the empty state and key "k": the
stuck shape is reached by a failed load of "k" polled once, and from it a
further read is a no-op. -/
theorem c10_failed_read_stuck_witness :
    ∃ sEnd, SrcApp.loadFailThenPoll
        { notes := [], channels := [], jobs := [], errorMsg := [] } "k" "boom" = some sEnd ∧
      SrcApp.FailedStuck sEnd "k" :=
  (c10_failed_read_stuck "k").2
    { notes := [], channels := [], jobs := [], errorMsg := [] } "boom" rfl rfl rfl

/-! ### Claim C8: id uniqueness -/

/-- C8, counterexample: `DataNode::new` builds a fresh
`AtomicTimestampRandIdGen` for every call, so no counter state is shared
between calls — two constructions in the same millisecond whose random draws
agree on the masked 12 bits produce the same 64-bit id.  Here two calls with
different environments (different `new()` seeds 5 and 4101, different
in-`next()` timestamps, different random draws 7 and 4103) still collide,
because `4101 & 0x0FFF = 5` and `4103 & 0x0FFF = 7`. -/
theorem c8_fresh_generator_collision :
    IdGen.dataNodeNewId 1700000000000 5 1700000099999 7
      = IdGen.dataNodeNewId 1700000000000 4101 1700000000042 4103 ∧
    ((5 : Nat), (1700000099999 : Nat), (7 : Nat)) ≠ (4101, 1700000000042, 4103) := by
  constructor
  · rfl
  · decide

/-- C8 (amended): ids minted by one shared `TimestampRandIdGen` instance are
distinct across successive `next` calls — `timestamp_cnt` advances to
`max(now, timestamp_cnt + 1)`, so it strictly increases and the high id bits
differ — provided the counters stay below `2^40` (true for millisecond
timestamps until the year ~36000); but the repository's constructors create a
throwaway generator per call (`AtomicTimestampRandIdGen::new().next()`), so
this guarantee does not apply to them and process-wide uniqueness is only
probabilistic. -/
theorem c8_single_generator_distinct (g : IdGen.TRGen) (now1 rnd1 now2 rnd2 : Nat)
    (h0 : g.timestamp_cnt + 3 ≤ 2 ^ 40) (h1 : now1 + 2 ≤ 2 ^ 40) (h2 : now2 < 2 ^ 40) :
    ((g.next now1 rnd1).1.next now2 rnd2).2 ≠ (g.next now1 rnd1).2 := by
  have h40 : (2 : Nat) ^ 40 = 1099511627776 := by norm_num
  have h64 : (2 : Nat) ^ 64 = 18446744073709551616 := by norm_num
  have h24 : (2 : Nat) ^ 24 = 16777216 := by norm_num
  have hc0 : (g.timestamp_cnt + 1) % 2 ^ 64 = g.timestamp_cnt + 1 :=
    Nat.mod_eq_of_lt (by omega)
  have e1 : (g.next now1 rnd1).2
      = IdGen.packId (Nat.max now1 (g.timestamp_cnt + 1))
          ((g.rand_seed_cnt + 1) % 2 ^ 16) rnd1 := by
    dsimp only [IdGen.TRGen.next]
    rw [hc0]
  have e1g : (g.next now1 rnd1).1.timestamp_cnt = Nat.max now1 (g.timestamp_cnt + 1) := by
    dsimp only [IdGen.TRGen.next]
    rw [hc0]
  have hb1 : Nat.max now1 (g.timestamp_cnt + 1) ≤ 2 ^ 40 - 2 :=
    Nat.max_le.mpr ⟨by omega, by omega⟩
  have hb1lo : g.timestamp_cnt + 1 ≤ Nat.max now1 (g.timestamp_cnt + 1) :=
    Nat.le_max_right now1 (g.timestamp_cnt + 1)
  have hc1 : (Nat.max now1 (g.timestamp_cnt + 1) + 1) % 2 ^ 64
      = Nat.max now1 (g.timestamp_cnt + 1) + 1 :=
    Nat.mod_eq_of_lt (by omega)
  have e2 : ((g.next now1 rnd1).1.next now2 rnd2).2
      = IdGen.packId (Nat.max now2 (Nat.max now1 (g.timestamp_cnt + 1) + 1))
          (((g.next now1 rnd1).1.rand_seed_cnt + 1) % 2 ^ 16) rnd2 := by
    conv_lhs => rw [IdGen.TRGen.next]
    dsimp only
    rw [e1g, hc1]
  have hb2 : Nat.max now2 (Nat.max now1 (g.timestamp_cnt + 1) + 1) ≤ 2 ^ 40 - 1 :=
    Nat.max_le.mpr ⟨by omega, by omega⟩
  have hb2lo : Nat.max now1 (g.timestamp_cnt + 1) + 1
      ≤ Nat.max now2 (Nat.max now1 (g.timestamp_cnt + 1) + 1) :=
    Nat.le_max_right _ _
  rw [e1, e2, IdGen.packId, IdGen.packId]
  have hm1 : Nat.max now1 (g.timestamp_cnt + 1) % 2 ^ 40
      = Nat.max now1 (g.timestamp_cnt + 1) := Nat.mod_eq_of_lt (by omega)
  have hm2 : Nat.max now2 (Nat.max now1 (g.timestamp_cnt + 1) + 1) % 2 ^ 40
      = Nat.max now2 (Nat.max now1 (g.timestamp_cnt + 1) + 1) :=
    Nat.mod_eq_of_lt (by omega)
  rw [hm1, hm2]
  have hl1 : IdGen.u12 ((g.rand_seed_cnt + 1) % 2 ^ 16) * 2 ^ 12 + IdGen.u12 rnd1
      < 2 ^ 24 := by
    have ha : IdGen.u12 ((g.rand_seed_cnt + 1) % 2 ^ 16) < 4096 :=
      Nat.mod_lt _ (by norm_num)
    have hb : IdGen.u12 rnd1 < 4096 := Nat.mod_lt _ (by norm_num)
    have h12 : (2 : Nat) ^ 12 = 4096 := by norm_num
    omega
  have hl2 : IdGen.u12 (((g.next now1 rnd1).1.rand_seed_cnt + 1) % 2 ^ 16) * 2 ^ 12
      + IdGen.u12 rnd2 < 2 ^ 24 := by
    have ha : IdGen.u12 (((g.next now1 rnd1).1.rand_seed_cnt + 1) % 2 ^ 16) < 4096 :=
      Nat.mod_lt _ (by norm_num)
    have hb : IdGen.u12 rnd2 < 4096 := Nat.mod_lt _ (by norm_num)
    have h12 : (2 : Nat) ^ 12 = 4096 := by norm_num
    omega
  intro heq
  omega

/-- Witness for `c8_single_generator_distinct` at a concrete shared
generator. -/
theorem c8_single_generator_distinct_witness :
    ((({ rand_seed_cnt := 0, timestamp_cnt := 1000 } : IdGen.TRGen).next 2000 3).1.next
        2001 4).2
      ≠ (({ rand_seed_cnt := 0, timestamp_cnt := 1000 } : IdGen.TRGen).next 2000 3).2 :=
  c8_single_generator_distinct { rand_seed_cnt := 0, timestamp_cnt := 1000 } 2000 3 2001 4
    (by norm_num) (by norm_num) (by norm_num)
